import Mathlib

/-!
Verification development for the label-text interpreter of the grocery
application (source: `src/App.jsx`, OCR utilities section).

The JavaScript code is shallowly embedded: strings are `String`/`List Char`,
JS numbers carrying confidence scores and ids are modelled as `Rat`, calendar
dates as explicit year/month/day triples (the host is modelled as running in
a fixed zero-offset timezone), and the impure inputs of an invocation
(`Date.now()`, `new Date()`, `Math.random()`) are gathered into a `Ctx`
parameter: `nowMs` is the millisecond clock, `today` the calendar date of
processing, and `rnd k` the value of the k-th `Math.random()` call.
-/

attribute [local semireducible] Rat.add Rat.mul Rat.inv

namespace OCR

/-- ASCII whitespace characters matched by the JS `\s` class (the model is
restricted to the ASCII range, which is all the pipeline's tables use). -/
def wsB (c : Char) : Bool :=
  c = ' ' || c = '\t' || c = '\n' || c = '\r' || c = Char.ofNat 11 || c = Char.ofNat 12

/-- ASCII lowercasing, the fragment of `toLowerCase()` exercised here. -/
def asciiLower (c : Char) : Char :=
  if 'A' ≤ c ∧ c ≤ 'Z' then Char.ofNat (c.toNat + 32) else c

/-- ASCII uppercasing, the fragment of `toUpperCase()` exercised here. -/
def asciiUpper (c : Char) : Char :=
  if 'a' ≤ c ∧ c ≤ 'z' then Char.ofNat (c.toNat - 32) else c

/-- Lowercase a character list (JS `toLowerCase()`). -/
def lowerL (l : List Char) : List Char := l.map asciiLower

/-- Is the character an ASCII letter (JS `[a-zA-Z]`)? -/
def letterB (c : Char) : Bool := ('a' ≤ c && c ≤ 'z') || ('A' ≤ c && c ≤ 'Z')

/-- Is the character a lowercase ASCII letter (JS `[a-z]`)? -/
def lowLetterB (c : Char) : Bool := 'a' ≤ c && c ≤ 'z'

/-- JS `String.prototype.trim()` on a character list. -/
def trimL (l : List Char) : List Char :=
  ((l.dropWhile wsB).reverse.dropWhile wsB).reverse

/-- Does `l` contain `sub` as a contiguous substring (JS `includes`)? -/
def containsL : List Char → List Char → Bool
  | _, [] => true
  | [], _ :: _ => false
  | c :: l, s => (s.isPrefixOf (c :: l)) || containsL l s

/-- JS `split(/\s+/)`: the pieces between maximal whitespace runs, keeping
the empty leading/trailing pieces JS produces. Fueled recursion; the fuel
`l.length + 1` always suffices. -/
def splitWsGo : Nat → List Char → List (List Char)
  | 0, _ => []
  | fuel + 1, l =>
    let tok := l.takeWhile (fun c => !wsB c)
    let rest := l.dropWhile (fun c => !wsB c)
    match rest with
    | [] => [tok]
    | _ :: _ => tok :: splitWsGo fuel (rest.dropWhile wsB)

/-- JS `split(/\s+/)` on a character list. -/
def splitWsL (l : List Char) : List (List Char) := splitWsGo (l.length + 1) l

/-- JS `split('\n')` on a character list. -/
def splitNlGo : Nat → List Char → List (List Char)
  | 0, _ => []
  | fuel + 1, l =>
    let tok := l.takeWhile (fun c => c ≠ '\n')
    let rest := l.dropWhile (fun c => c ≠ '\n')
    match rest with
    | [] => [tok]
    | _ :: t => tok :: splitNlGo fuel t

/-- JS `split('\n')` on a character list. -/
def splitNlL (l : List Char) : List (List Char) := splitNlGo (l.length + 1) l

/-- Case-insensitive prefix test over ASCII (used for month-name matching). -/
def ciStarts : List Char → List Char → Bool
  | [], _ => true
  | _ :: _, [] => false
  | p :: ps, c :: cs => (asciiLower c = asciiLower p) && ciStarts ps cs

/-- The calendar-date value recovered by the date parsers: a plain
year/month/day triple (the time-of-day of every parsed date is midnight). -/
structure CalDate where
  y : Int
  m : Nat
  d : Nat
deriving DecidableEq, Repr

/-- Gregorian leap-year test. -/
def isLeapY (y : Int) : Bool :=
  (y % 4 = 0 && y % 100 ≠ 0) || y % 400 = 0

/-- Number of days in a month of a given year (the day-of-month table the
date library validates against, with the February leap adjustment). -/
def daysInMonth (y : Int) (m : Nat) : Nat :=
  match m with
  | 1 => 31
  | 2 => if isLeapY y then 29 else 28
  | 3 => 31
  | 4 => 30
  | 5 => 31
  | 6 => 30
  | 7 => 31
  | 8 => 31
  | 9 => 30
  | 10 => 31
  | 11 => 30
  | 12 => 31
  | _ => 0

/-- Day count since 1970-01-01 of a Gregorian date (standard civil-calendar
day-number computation, on which the model's epoch-millisecond clock rests). -/
def daysFromCivil (dt : CalDate) : Int :=
  let y : Int := if dt.m ≤ 2 then dt.y - 1 else dt.y
  let era : Int := Int.fdiv y 400
  let yoe : Int := y - era * 400
  let mp : Nat := (dt.m + 9) % 12
  let doy : Int := (153 * (mp : Int) + 2) / 5 + (dt.d : Int) - 1
  let doe : Int := yoe * 365 + yoe / 4 - yoe / 100 + doy
  era * 146097 + doe - 719468

/-- Inverse of `daysFromCivil`: the Gregorian date of a day number. -/
def civilFromDays (z0 : Int) : CalDate :=
  let z : Int := z0 + 719468
  let era : Int := Int.fdiv z 146097
  let doe : Nat := (z - era * 146097).toNat
  let yoe : Nat := (doe - doe / 1460 + doe / 36524 - doe / 146096) / 365
  let doy : Nat := doe - (365 * yoe + yoe / 4 - yoe / 100)
  let mp : Nat := (5 * doy + 2) / 153
  let d : Nat := doy - (153 * mp + 2) / 5 + 1
  let m : Nat := if mp < 10 then mp + 3 else mp - 9
  { y := (yoe : Int) + era * 400 + (if m ≤ 2 then 1 else 0), m := m, d := d }

/-- JS `addDays(date, n)` from the date library: shift by whole days. -/
def addDaysD (dt : CalDate) (n : Int) : CalDate := civilFromDays (daysFromCivil dt + n)

/-- Midnight of a date on the model's millisecond clock (`getTime()`). -/
def dateMs (dt : CalDate) : Int := daysFromCivil dt * 86400000

/-- Digit character of a value 0–9. -/
def dChar : Nat → Char
  | 0 => '0' | 1 => '1' | 2 => '2' | 3 => '3' | 4 => '4'
  | 5 => '5' | 6 => '6' | 7 => '7' | 8 => '8' | _ => '9'

/-- Two-digit zero-padded decimal rendering (values below 100). -/
def pad2 (n : Nat) : List Char :=
  if n < 10 then ['0', dChar n] else [dChar (n / 10), dChar (n % 10)]

/-- Four-digit zero-padded decimal rendering (values below 10000). -/
def pad4 (n : Nat) : List Char :=
  [dChar (n / 1000), dChar (n / 100 % 10), dChar (n / 10 % 10), dChar (n % 10)]

/-- One-or-two-digit decimal rendering of a month or day as it can be
written in a numeric date: zero-padded to two digits when `pad` is set,
bare otherwise (values of ten or more always take two digits). -/
def digsOf2 (pad : Bool) (n : Nat) : List Char :=
  if pad then pad2 n else if 10 ≤ n then pad2 n else [dChar n]

/-- Rendering of a year as the `yyyy` format token does: zero-padded to four
digits, full decimal expansion above 9999, and the sign dropped never arises
because no parser below produces a negative year. -/
def padY (y : Int) : List Char :=
  if y.toNat < 10000 then pad4 y.toNat else (Nat.repr y.toNat).data

/-- JS `format(date, 'yyyy-MM-dd')` of the date library. -/
def fmtYmd (dt : CalDate) : String :=
  String.mk (padY dt.y ++ '-' :: pad2 dt.m ++ '-' :: pad2 dt.d)

/-- Numeric value of a digit character. -/
def toDigit (c : Char) : Nat := c.toNat - 48

/-- Decimal value of a digit-character list. -/
def digsVal (ds : List Char) : Nat := ds.foldl (fun a c => 10 * a + toDigit c) 0

/-- Greedy numeric token of the date library's parser: consume one to `n`
leading digits (`parseNDigits`), returning the value and the rest. -/
def takeDigs (n : Nat) (s : List Char) : Option (Nat × List Char) :=
  let ds := (s.takeWhile Char.isDigit).take n
  if ds.isEmpty then none else some (digsVal ds, s.drop ds.length)

/-- Abbreviated month names of the date library's en-US locale. -/
def monthAbbrs : List (List Char) :=
  [['j','a','n'], ['f','e','b'], ['m','a','r'], ['a','p','r'], ['m','a','y'],
   ['j','u','n'], ['j','u','l'], ['a','u','g'], ['s','e','p'], ['o','c','t'],
   ['n','o','v'], ['d','e','c']]

/-- Wide month names of the date library's en-US locale. -/
def monthWides : List (List Char) :=
  [['j','a','n','u','a','r','y'], ['f','e','b','r','u','a','r','y'],
   ['m','a','r','c','h'], ['a','p','r','i','l'], ['m','a','y'],
   ['j','u','n','e'], ['j','u','l','y'], ['a','u','g','u','s','t'],
   ['s','e','p','t','e','m','b','e','r'], ['o','c','t','o','b','e','r'],
   ['n','o','v','e','m','b','e','r'], ['d','e','c','e','m','b','e','r']]

/-- Match one of a list of month names case-insensitively as a prefix,
returning the month number (1-based) and the remaining input. -/
def monMatchGo (names : List (List Char)) (k : Nat) (s : List Char) :
    Option (Nat × List Char) :=
  match names with
  | [] => none
  | n :: ns =>
    if ciStarts n s then some (k, s.drop n.length) else monMatchGo ns (k + 1) s

/-- Format tokens of the date library's `parse` for the formats the source
lists: two-digit-max numeric month/day, four-digit-max year, two-digit year,
abbreviated and wide month names, and literal characters. -/
inductive FTok where
  | litC (c : Char)
  | numM
  | numD
  | numY4
  | numY2
  | monA
  | monW
deriving DecidableEq, Repr

/-- Partial parse state of one format attempt: the collected year value (with
its two-digit flag), month, and day. -/
structure PSt where
  py : Option Nat := none
  pytwo : Bool := false
  pm : Option Nat := none
  pd : Option Nat := none
deriving DecidableEq, Repr

/-- Run a token list over the input, consuming characters greedily with no
backtracking, exactly as the date library's sequential token parser does;
succeeds only if the whole input is consumed. -/
def runToks : List FTok → List Char → PSt → Option PSt
  | [], s, st => if s.isEmpty then some st else none
  | t :: ts, s, st =>
    match t with
    | .litC c =>
      match s with
      | c' :: s' => if c' = c then runToks ts s' st else none
      | [] => none
    | .numM =>
      match takeDigs 2 s with
      | some (v, s') => runToks ts s' { st with pm := some v }
      | none => none
    | .numD =>
      match takeDigs 2 s with
      | some (v, s') => runToks ts s' { st with pd := some v }
      | none => none
    | .numY4 =>
      match takeDigs 4 s with
      | some (v, s') => runToks ts s' { st with py := some v, pytwo := false }
      | none => none
    | .numY2 =>
      match takeDigs 2 s with
      | some (v, s') => runToks ts s' { st with py := some v, pytwo := true }
      | none => none
    | .monA =>
      match monMatchGo monthAbbrs 1 s with
      | some (v, s') => runToks ts s' { st with pm := some v }
      | none => none
    | .monW =>
      match monMatchGo monthWides 1 s with
      | some (v, s') => runToks ts s' { st with pm := some v }
      | none => none

/-- The date library's two-digit-year resolution against the reference year
(`normalizeTwoDigitYear`): the result lands within fifty years of it. -/
def resolveTwoDigit (refY : Int) (v : Nat) : Int :=
  let isCE : Bool := 0 < refY
  let absY : Int := if isCE then refY else 1 - refY
  let result : Int :=
    if absY ≤ 50 then (if v = 0 then 100 else (v : Int))
    else
      let rangeEnd : Int := absY + 50
      let rangeEndCentury : Int := Int.fdiv rangeEnd 100 * 100
      let isPrev : Bool := (v : Int) ≥ rangeEnd % 100
      (v : Int) + rangeEndCentury - (if isPrev then 100 else 0)
  if isCE then result else 1 - result

/-- Validation and assembly after one format attempt, mirroring the date
library's per-token validators: a non-two-digit year must be positive, the
month must be 1–12, and the day must exist in the resolved year and month. -/
def finishFmt (refY : Int) (st : PSt) : Option CalDate :=
  match st.py, st.pm, st.pd with
  | some yv, some m, some d =>
    if st.pytwo = false ∧ yv = 0 then none
    else
      let y : Int := if st.pytwo then resolveTwoDigit refY yv else (yv : Int)
      if 1 ≤ m ∧ m ≤ 12 ∧ 1 ≤ d ∧ d ≤ daysInMonth y m then
        some { y := y, m := m, d := d }
      else none
  | _, _, _ => none

/-- Token lists of the twelve explicit formats the source tries, in order:
`'MM/dd/yyyy', 'MM/dd/yy', 'M/d/yyyy', 'M/d/yy', 'yyyy-MM-dd', 'yyyy/MM/dd',
'MMM dd yyyy', 'MMM dd, yyyy', 'MMMM dd yyyy', 'MMMM dd, yyyy',
'dd MMM yyyy', 'dd MMMM yyyy'` (in this parser `M` and `MM`, `d` and `dd`
each accept one or two digits, so the two spellings parse identically). -/
def dfFormats : List (List FTok) :=
  [ [.numM, .litC '/', .numD, .litC '/', .numY4],
    [.numM, .litC '/', .numD, .litC '/', .numY2],
    [.numM, .litC '/', .numD, .litC '/', .numY4],
    [.numM, .litC '/', .numD, .litC '/', .numY2],
    [.numY4, .litC '-', .numM, .litC '-', .numD],
    [.numY4, .litC '/', .numM, .litC '/', .numD],
    [.monA, .litC ' ', .numD, .litC ' ', .numY4],
    [.monA, .litC ' ', .numD, .litC ',', .litC ' ', .numY4],
    [.monW, .litC ' ', .numD, .litC ' ', .numY4],
    [.monW, .litC ' ', .numD, .litC ',', .litC ' ', .numY4],
    [.numD, .litC ' ', .monA, .litC ' ', .numY4],
    [.numD, .litC ' ', .monW, .litC ' ', .numY4] ]

/-- First success over a list of attempts. -/
def firstSome : List α → (α → Option β) → Option β
  | [], _ => none
  | a :: l, f =>
    match f a with
    | some b => some b
    | none => firstSome l f

/-- Try the formats of `dfFormats` in order against the (already trimmed)
input; month names match case-insensitively through `ciStarts`, literals and
digits exactly, as in the date library. -/
def dfParse (refY : Int) (s : List Char) : Option CalDate :=
  firstSome dfFormats (fun toks =>
    match runToks toks s {} with
    | some st => finishFmt refY st
    | none => none)

/-- Strict ISO `yyyy-MM-dd` recognition of the host `Date` constructor:
exactly ten characters, digits in the date positions, in-range components. -/
def parseIso (s : List Char) : Option CalDate :=
  match s with
  | [a, b, c, d, s1, e, f, s2, g, h] =>
    if a.isDigit && b.isDigit && c.isDigit && d.isDigit && s1 = '-' &&
       e.isDigit && f.isDigit && s2 = '-' && g.isDigit && h.isDigit then
      let y : Nat := digsVal [a, b, c, d]
      let m : Nat := digsVal [e, f]
      let dd : Nat := digsVal [g, h]
      if 1 ≤ m ∧ m ≤ 12 ∧ 1 ≤ dd ∧ dd ≤ daysInMonth (y : Int) m then
        some { y := (y : Int), m := m, d := dd }
      else none
    else none
  | _ => none

/-- Lenient numeric month/day/year recognition of the host `Date`
constructor's legacy path: a digit run, a slash or dash, a digit run, a slash
or dash, a digit run ending the input; the first number is the month (it must
be 1–12 — the host does not swap to day-first), the second the day, and a
third number below 100 picks the century as the host does (0–49 maps to
20xx, 50–99 to 19xx). -/
def legacyNum (s : List Char) : Option CalDate :=
  match takeDigs 6 s with
  | some (m, s1) =>
    match s1 with
    | sep1 :: r1 =>
      if sep1 = '/' || sep1 = '-' then
        match takeDigs 6 r1 with
        | some (d, s2) =>
          match s2 with
          | sep2 :: r2 =>
            if sep2 = '/' || sep2 = '-' then
              match takeDigs 6 r2 with
              | some (yv, s3) =>
                if s3.isEmpty then
                  let y : Int := if yv < 50 then (yv : Int) + 2000
                    else if yv < 100 then (yv : Int) + 1900 else (yv : Int)
                  if 1 ≤ m ∧ m ≤ 12 ∧ 1 ≤ d ∧ d ≤ daysInMonth y m then
                    some { y := y, m := m, d := d }
                  else none
                else none
              | none => none
            else none
          | [] => none
        | none => none
      else none
    | [] => none
  | none => none

/-- Modelled from the host platform: the generic `new Date(string)` parse the
source falls back to, restricted to the string shapes reachable from the
scanner's patterns — strict ISO `yyyy-MM-dd` first, then the legacy numeric
month/day/year form; every other shape yields no date here. -/
def nativeParse (s : List Char) : Option CalDate :=
  match parseIso s with
  | some dt => some dt
  | none => legacyNum s

/-- `parseDate` of the source: trim, try the twelve explicit formats in
order, then fall back to the host's generic parse (`new Date(...)`); `none`
models the `null` return. The reference year feeds the two-digit-year
resolution of the `yy` token. -/
def parseDate (today : CalDate) (dateText : String) : Option CalDate :=
  let cleanDate := trimL dateText.data
  match dfParse today.y cleanDate with
  | some dt => some dt
  | none => nativeParse cleanDate

/-- Is the character a slash or dash, the separator class of the numeric
date patterns? -/
def sepB (c : Char) : Bool := c = '/' || c = '-'

/-- Are the next `n` characters all digits (with at least `n` present)? -/
def digN (n : Nat) (s : List Char) : Bool :=
  (s.take n).length = n && (s.take n).all Char.isDigit

/-- Length matched at the current position by the first scanner pattern
`(\d{1,2})[\/\-](\d{1,2})[\/\-](\d{2,4})`, trying alternatives in the JS
engine's greedy backtracking order. -/
def pat1 (s : List Char) : Option Nat :=
  firstSome [2, 1] (fun a =>
    if digN a s then
      match s.drop a with
      | c1 :: s2 =>
        if sepB c1 then
          firstSome [2, 1] (fun b =>
            if digN b s2 then
              match s2.drop b with
              | c2 :: s4 =>
                if sepB c2 then
                  firstSome [4, 3, 2] (fun c =>
                    if digN c s4 then some (a + 1 + b + 1 + c) else none)
                else none
              | [] => none
            else none)
        else none
      | [] => none
    else none)

/-- Length matched at the current position by the second scanner pattern
`(\d{4})[\/\-](\d{1,2})[\/\-](\d{1,2})`. -/
def pat2 (s : List Char) : Option Nat :=
  if digN 4 s then
    match s.drop 4 with
    | c1 :: s2 =>
      if sepB c1 then
        firstSome [2, 1] (fun b =>
          if digN b s2 then
            match s2.drop b with
            | c2 :: s4 =>
              if sepB c2 then
                firstSome [2, 1] (fun c =>
                  if digN c s4 then some (4 + 1 + b + 1 + c) else none)
              else none
            | [] => none
          else none)
      else none
    | [] => none
  else none

/-- Length matched at the current position by the third scanner pattern
`(Jan|…|Dec)[a-z]*\s+(\d{1,2}),?\s+(\d{4})` with the `i` flag (so the
bracket class also takes uppercase letters). The whitespace runs are
consumed greedily; backtracking them cannot help because the following
token classes are disjoint from whitespace. -/
def pat3 (s : List Char) : Option Nat :=
  match monMatchGo monthAbbrs 1 s with
  | some (_, s1) =>
    let k := (s1.takeWhile letterB).length
    let s2 := s1.drop k
    let w1 := (s2.takeWhile wsB).length
    if w1 = 0 then none
    else
      let s3 := s2.drop w1
      firstSome [2, 1] (fun dd =>
        if digN dd s3 then
          let s4 := s3.drop dd
          let cm : Nat := match s4 with | ',' :: _ => 1 | _ => 0
          let s5 := s4.drop cm
          let w2 := (s5.takeWhile wsB).length
          if w2 = 0 then none
          else if digN 4 (s5.drop w2) then some (3 + k + w1 + dd + cm + w2 + 4)
          else none
        else none)
  | none => none

/-- Length matched at the current position by the fourth scanner pattern
`(\d{1,2})\s+(Jan|…|Dec)[a-z]*\s+(\d{4})` with the `i` flag. -/
def pat4 (s : List Char) : Option Nat :=
  firstSome [2, 1] (fun a =>
    if digN a s then
      let s1 := s.drop a
      let w1 := (s1.takeWhile wsB).length
      if w1 = 0 then none
      else
        match monMatchGo monthAbbrs 1 (s1.drop w1) with
        | some (_, s2) =>
          let k := (s2.takeWhile letterB).length
          let s3 := s2.drop k
          let w2 := (s3.takeWhile wsB).length
          if w2 = 0 then none
          else if digN 4 (s3.drop w2) then some (a + w1 + 3 + k + w2 + 4)
          else none
        | none => none
    else none)

/-- The `while ((match = pattern.exec(text)) !== null)` loop of the source:
find the leftmost match at or after the current position, record its index
and length, continue after it. Fueled; `l.length + 1` fuel always suffices
because every step either stops or advances. -/
def execGo (pat : List Char → Option Nat) : Nat → List Char → Nat → List (Nat × Nat)
  | 0, _, _ => []
  | fuel + 1, s, pos =>
    match pat s with
    | some len => (pos, len) :: execGo pat fuel (s.drop (max len 1)) (pos + max len 1)
    | none =>
      match s with
      | [] => []
      | _ :: t => execGo pat fuel t (pos + 1)

/-- All matches (position, length) of one pattern over the text. -/
def execPat (pat : List Char → Option Nat) (l : List Char) : List (Nat × Nat) :=
  execGo pat (l.length + 1) l 0

/-- A scanned date candidate: the matched text, its trimmed ±20-character
context window, and its match position. -/
structure DCand where
  txt : List Char
  ctxw : List Char
  pos : Nat
deriving DecidableEq, Repr

/-- Contiguous slice `[start, stop)` of a character list. -/
def sliceL (l : List Char) (start stop : Nat) : List Char :=
  (l.drop start).take (stop - start)

/-- Build the candidate for one match: `Nat` subtraction floors at zero,
which is exactly the `Math.max(0, index - 20)` of the source. -/
def mkDC (l : List Char) (p : Nat × Nat) : DCand :=
  { txt := sliceL l p.1 (p.1 + p.2),
    ctxw := trimL (sliceL l (p.1 - 20) (min l.length (p.1 + p.2 + 20))),
    pos := p.1 }

/-- `extractDates` of the source: the four patterns run independently over
the whole text and their matches are pooled in pattern order. -/
def extractDates (l : List Char) : List DCand :=
  (execPat pat1 l ++ execPat pat2 l ++ execPat pat3 l ++ execPat pat4 l).map (mkDC l)

/-- `EXPIRY_KEYWORDS` of the source. -/
def EXPIRY_KEYWORDS : List String :=
  ["exp", "expires", "expiry", "expiration",
   "best by", "best before", "use by", "use before",
   "sell by", "fresh until", "good until"]

/-- `isLikelyExpiryDate` of the source: case-insensitive substring test of
any expiry keyword in the context window. -/
def isLikelyExpiryDate (ctxw : List Char) : Bool :=
  EXPIRY_KEYWORDS.any (fun k => containsL (lowerL ctxw) k.data)

/-- `COMMON_ITEMS` of the source. -/
def COMMON_ITEMS : List String :=
  ["milk", "bread", "eggs", "cheese", "butter", "yogurt",
   "chicken", "beef", "pork", "fish", "salmon", "turkey",
   "apples", "bananas", "oranges", "grapes", "strawberries",
   "lettuce", "tomatoes", "carrots", "onions", "potatoes",
   "rice", "pasta", "cereal", "juice", "water"]

/-- A proposed item name with its heuristic confidence. -/
structure NameCand where
  name : String
  confidence : Rat
deriving DecidableEq, Repr

/-- `charAt(0).toUpperCase() + slice(1)` of the source. -/
def capFirst : List Char → List Char
  | [] => []
  | c :: r => asciiUpper c :: r

/-- Whole-text vocabulary scan of `extractItemNames`: for each vocabulary
term in order, emit it capitalized at confidence 0.8 if any
whitespace-split word of the lowercased text contains it. -/
def vocabScan (words : List (List Char)) : List String → List NameCand
  | [] => []
  | item :: rest =>
    if words.any (fun w => containsL w item.data) then
      { name := String.mk (capFirst item.data), confidence := 4/5 } :: vocabScan words rest
    else vocabScan words rest

/-- Inner word loop of the context-window scan: letters-only cleaned words
longer than two characters that exactly match a vocabulary term are pushed
at confidence 0.9 unless the name was already emitted. -/
def ctxWordScan (acc : List NameCand) : List (List Char) → List NameCand
  | [] => acc
  | w :: ws =>
    let cleanWord := w.filter lowLetterB
    if 2 < cleanWord.length && COMMON_ITEMS.any (fun it => it.data = cleanWord) then
      let itemName := String.mk (capFirst cleanWord)
      if acc.any (fun it => it.name = itemName) then ctxWordScan acc ws
      else ctxWordScan (acc ++ [{ name := itemName, confidence := 9/10 }]) ws
    else ctxWordScan acc ws

/-- Context-window scan of `extractItemNames` over all date contexts. -/
def ctxScan (acc : List NameCand) : List String → List NameCand
  | [] => acc
  | c :: cs => ctxScan (ctxWordScan acc (splitWsL (lowerL c.data))) cs

/-- Line-leading-token fallback of `extractItemNames`: the first token of
each non-empty line, stripped to letters, if longer than two characters,
capitalized at confidence 0.5. -/
def lineScan : List (List Char) → List NameCand
  | [] => []
  | line :: rest =>
    let t := trimL line
    if t.isEmpty then lineScan rest
    else
      let firstWord := ((splitWsL t).headD []).filter letterB
      if 2 < firstWord.length then
        { name := String.mk (match firstWord with | [] => [] | c :: r => asciiUpper c :: lowerL r),
          confidence := 1/2 } :: lineScan rest
      else lineScan rest

/-- `extractItemNames` of the source: vocabulary scan, then context-window
scan appending to the same list, then the line fallback only when both
produced nothing. -/
def extractItemNames (text : String) (dateContexts : List String) : List NameCand :=
  let words := splitWsL (lowerL text.data)
  let base := ctxScan (vocabScan words COMMON_ITEMS) dateContexts
  if base.isEmpty then lineScan (splitNlL text.data) else base

/-- A date candidate that parsed: the scanner fields plus the parsed
calendar date and the expiry-likelihood flag. -/
structure VDate where
  txt : List Char
  ctxw : List Char
  pos : Nat
  pdate : CalDate
  isExp : Bool
deriving DecidableEq, Repr

/-- The impure environment of one `processOCRText` invocation: the
millisecond clock (`Date.now()`), the processing date (`new Date()`), and
the stream of `Math.random()` results in call order. -/
structure Ctx where
  nowMs : Int
  today : CalDate
  rnd : Nat → Rat

/-- An output record of the pipeline (`GroceryItemRecord`). -/
structure GroceryRecord where
  id : Rat
  name : String
  expiryDate : String
  addedDate : String
  confidence : Rat
deriving DecidableEq, Repr

/-- The `validDates` list of `processOCRText`: every scanned candidate is
parsed and classified, and the unparseable ones are dropped. -/
def validDatesOf (ctx : Ctx) (text : String) : List VDate :=
  (extractDates text.data).filterMap (fun dc =>
    match parseDate ctx.today (String.mk dc.txt) with
    | some dt =>
      some { txt := dc.txt, ctxw := dc.ctxw, pos := dc.pos, pdate := dt,
             isExp := isLikelyExpiryDate dc.ctxw }
    | none => none)

/-- Pair each element with its position. -/
def withIdx : List α → Nat → List (α × Nat)
  | [], _ => []
  | a :: l, i => (a, i) :: withIdx l (i + 1)

/-- Total order on index-tagged elements: by key lexicographically, then by
original position — the unique order a stable comparator sort produces. -/
def pairLe (k : α → Int × Int) (x y : α × Nat) : Bool :=
  if (k x.1).1 < (k y.1).1 then true
  else if (k y.1).1 < (k x.1).1 then false
  else if (k x.1).2 < (k y.1).2 then true
  else if (k y.1).2 < (k x.1).2 then false
  else x.2 ≤ y.2

/-- Ordered insertion for `isortLe`. -/
def insLe (le : β → β → Bool) (a : β) : List β → List β
  | [] => [a]
  | b :: l => if le a b then a :: b :: l else b :: insLe le a l

/-- Insertion sort by a boolean total order. -/
def isortLe (le : β → β → Bool) : List β → List β
  | [] => []
  | a :: l => insLe le a (isortLe le l)

/-- The JS `Array.prototype.sort` with a consistent numeric comparator: a
stable sort, realized as the unique order by (key, original index). -/
def sortOn (k : α → Int × Int) (l : List α) : List α :=
  (isortLe (pairLe k) (withIdx l 0)).map Prod.fst

/-- Sort key of the date-ranking comparator: expiry-flagged first, then
absolute millisecond distance from the clock. -/
def dateKey (now : Int) (v : VDate) : Int × Int :=
  (if v.isExp then 0 else 1, ((dateMs v.pdate - now).natAbs : Int))

/-- Sort key of the final output comparator
`new Date(a.expiryDate) - new Date(b.expiryDate)`; the pipeline only ever
compares its own `yyyy-MM-dd` strings, read back through the ISO parse. -/
def finalKey (r : GroceryRecord) : Int × Int :=
  (match parseIso r.expiryDate.data with
   | some dt => daysFromCivil dt
   | none => 0, 0)

/-- First-pass match condition: the candidate's context contains the item
name, or its first four characters, case-insensitively. -/
def p1cond (it : NameCand) (v : VDate) : Bool :=
  let cl := lowerL v.ctxw
  let nl := lowerL it.name.data
  containsL cl nl || containsL cl (nl.take 4)

/-- Find the first not-yet-used date (by index) matching the item. -/
def findDateGo (it : NameCand) (used : List Nat) : List VDate → Nat → Option (Nat × VDate)
  | [], _ => none
  | v :: vs, i =>
    if !(used.contains i) && p1cond it v then some (i, v)
    else findDateGo it used vs (i + 1)

/-- Entry point of the first-pass date search. -/
def findDate (it : NameCand) (used : List Nat) (dates : List VDate) : Option (Nat × VDate) :=
  findDateGo it used dates 0

/-- Build one output record: the id is `Date.now() + Math.random()` plus
the loop index where the source adds it, with `c` the number of
`Math.random()` calls made so far in this invocation. -/
def mkRec (ctx : Ctx) (c : Nat) (extra : Nat) (nm : String) (expd : String) (conf : Rat) :
    GroceryRecord :=
  { id := (ctx.nowMs : Rat) + ctx.rnd c + (extra : Rat),
    name := nm, expiryDate := expd,
    addedDate := fmtYmd ctx.today, confidence := conf }

/-- First pass of the associator: for each name candidate in order, take the
first unused date whose context matches, emit a record with the expiry
bonus, and mark the date used. Returns the records, the used-index set, and
the `Math.random()` call count. -/
def pass1 (ctx : Ctx) (dates : List VDate) :
    List NameCand → List Nat → Nat → List GroceryRecord × List Nat × Nat
  | [], used, c => ([], used, c)
  | it :: rest, used, c =>
    match findDate it used dates with
    | some (i, v) =>
      let r := mkRec ctx c 0 it.name (fmtYmd v.pdate)
        (it.confidence + (if v.isExp then 1/5 else 0))
      let out := pass1 ctx dates rest (i :: used) (c + 1)
      (r :: out.1, out.2)
    | none => pass1 ctx dates rest used c

/-- Second pass of the associator: the `index`-th remaining item takes the
`index`-th remaining date if it exists, else the 7-day default expiry with
halved confidence. -/
def pass2 (ctx : Ctx) (remDates : List VDate) :
    List NameCand → Nat → Nat → List GroceryRecord
  | [], _, _ => []
  | it :: rest, c, idx =>
    (match remDates.get? idx with
     | some v => mkRec ctx c idx it.name (fmtYmd v.pdate) it.confidence
     | none => mkRec ctx c idx it.name (fmtYmd (addDaysD ctx.today 7))
         (it.confidence * (1/2)))
    :: pass2 ctx remDates rest (c + 1) (idx + 1)

/-- The dates whose index is not in the used set, in order. -/
def filterNotUsed (used : List Nat) : List VDate → Nat → List VDate
  | [], _ => []
  | v :: vs, i =>
    if used.contains i then filterNotUsed used vs (i + 1)
    else v :: filterNotUsed used vs (i + 1)

/-- Orphan-date synthesis: generic items from the first ranked dates at
confidence 0.3 (reached only with zero prior records, hence zero prior
`Math.random()` calls). -/
def genericRecs (ctx : Ctx) : List VDate → Nat → List GroceryRecord
  | [], _ => []
  | v :: vs, idx =>
    mkRec ctx idx idx ("Item " ++ Nat.repr (idx + 1)) (fmtYmd v.pdate) (3/10)
      :: genericRecs ctx vs (idx + 1)

/-- The in-place sorted `validDates` array the passes index into. -/
def sortedDatesOf (ctx : Ctx) (text : String) : List VDate :=
  sortOn (dateKey ctx.nowMs) (validDatesOf ctx text)

/-- The `itemNames` list of `processOCRText`, extracted with the sorted
candidates' context windows. -/
def itemsOf (ctx : Ctx) (text : String) : List NameCand :=
  extractItemNames text ((sortedDatesOf ctx text).map (fun v => String.mk v.ctxw))

/-- The association-and-output stage of `processOCRText` over the ranked
dates and extracted names: run both passes (the second over
`itemNames.slice(processedItems.length)`, exactly as the source slices by
count), synthesize generic items when nothing was produced but dates
exist, and sort by expiry date. -/
def processCore (ctx : Ctx) (sorted : List VDate) (items : List NameCand) :
    List GroceryRecord :=
  let fst := pass1 ctx sorted items [] 0
  let rem := items.drop fst.1.length
  let remD := filterNotUsed fst.2.1 sorted 0
  let p2r := pass2 ctx remD rem fst.2.2 0
  let allr := fst.1 ++ p2r
  let allr2 :=
    if allr.isEmpty && !sorted.isEmpty then genericRecs ctx (sorted.take 3) 0
    else allr
  sortOn finalKey allr2

/-- The body of `processOCRText` after the input guard: rank dates, extract
names, associate and emit. -/
def processBody (ctx : Ctx) (text : String) : List GroceryRecord :=
  processCore ctx (sortedDatesOf ctx text) (itemsOf ctx text)

/-- The JS values the exported `processOCRText` can receive. -/
inductive JSVal where
  | null
  | undef
  | num (q : Rat)
  | bool (b : Bool)
  | str (s : String)
deriving DecidableEq, Repr

/-- Is the value a string (the `typeof text === 'string'` test)? -/
def jsIsString : JSVal → Bool
  | .str _ => true
  | _ => false

/-- `processOCRText` of the source: falsy or non-string input returns the
empty list (the `!text || typeof text !== 'string'` guard); the body is a
total function of the remaining input, which realizes the top-level
catch-all that can only ever return what the body computed or `[]`. -/
def processOCRTextJS (ctx : Ctx) (v : JSVal) : List GroceryRecord :=
  match v with
  | .str s => if s = "" then [] else processBody ctx s
  | _ => []

/-- An arbitrary candidate record handed to `validateExtractedItem`: each
field may be absent. -/
structure RawItem where
  id : Option Rat := none
  name : Option String := none
  expiryDate : Option String := none
  addedDate : Option String := none
  confidence : Option Rat := none
deriving DecidableEq, Repr

/-- `validateExtractedItem` of the source: pass a truthy id through else
synthesize one; trim and truncate the name to 50 characters; canonicalize a
present, truthy expiry date, repairing an unparseable one to today + 7 days
while an absent or empty one stays the empty string; always stamp
`addedDate` with today; keep a confidence only when it is a number in
[0, 1]; reject only when the cleaned name is empty. -/
def validateExtractedItem (ctx : Ctx) (item : RawItem) : Option GroceryRecord :=
  let idv : Rat :=
    match item.id with
    | some q => if q = 0 then (ctx.nowMs : Rat) + ctx.rnd 0 else q
    | none => (ctx.nowMs : Rat) + ctx.rnd 0
  let nm : String :=
    match item.name with
    | some s => if s = "" then "" else String.mk ((trimL s.data).take 50)
    | none => ""
  let expd : String :=
    match item.expiryDate with
    | some s =>
      if s = "" then ""
      else
        match nativeParse s.data with
        | some dt => fmtYmd dt
        | none => fmtYmd (addDaysD ctx.today 7)
    | none => ""
  let conf : Rat :=
    match item.confidence with
    | some q => if 0 ≤ q ∧ q ≤ 1 then q else 0
    | none => 0
  if nm = "" then none
  else some { id := idv, name := nm, expiryDate := expd,
              addedDate := fmtYmd ctx.today, confidence := conf }

/-- View an already-canonical record as input for the validator. -/
def toRaw (r : GroceryRecord) : RawItem :=
  { id := some r.id, name := some r.name, expiryDate := some r.expiryDate,
    addedDate := some r.addedDate, confidence := some r.confidence }

/-- A record with the id (the only field fed by the random stream) erased. -/
def eraseId (r : GroceryRecord) : String × String × String × Rat :=
  (r.name, r.expiryDate, r.addedDate, r.confidence)

/-- The final-sort key read off an id-erased record; it agrees with
`finalKey` through `eraseId`. -/
def finalKeyE (p : String × String × String × Rat) : Int × Int :=
  (match parseIso p.2.1.data with
   | some dt => daysFromCivil dt
   | none => 0, 0)

/-- A concrete invocation environment: processing date 2024-12-21, the
matching midnight clock, and a random stream that is constantly zero. -/
def ctx0 : Ctx :=
  { nowMs := daysFromCivil ⟨2024, 12, 21⟩ * 86400000,
    today := ⟨2024, 12, 21⟩,
    rnd := fun _ => 0 }

/-- The same invocation environment with a different random stream,
modelling a second call at the same instant. -/
def ctx1 : Ctx :=
  { nowMs := daysFromCivil ⟨2024, 12, 21⟩ * 86400000,
    today := ⟨2024, 12, 21⟩,
    rnd := fun _ => 1/2 }

/-- A calendar date written in the numeric month/day/year shape with the
given separator: month and day in one or two digits (zero-padded exactly
when the corresponding flag is set), four-digit year. -/
def numDateStr (pm pd : Bool) (sep : Char) (m d y : Nat) : String :=
  String.mk (digsOf2 pm m ++ sep :: (digsOf2 pd d ++ sep :: pad4 y))

/-- In-range Gregorian date with a four-digit (or shorter) nonnegative
year — the dates whose `yyyy-MM-dd` rendering round-trips. -/
def validYmdB (dt : CalDate) : Bool :=
  decide (0 ≤ dt.y) && decide (dt.y ≤ 9999) &&
  decide (1 ≤ dt.m) && decide (dt.m ≤ 12) &&
  decide (1 ≤ dt.d) && decide (dt.d ≤ daysInMonth dt.y dt.m)

/-- The head of the list, if any, is not a digit (used to delimit the
greedy numeric tokens). -/
def headND : List Char → Prop
  | [] => True
  | c :: _ => c.isDigit = false

/-- No character of the list is whitespace. -/
def wsFree (l : List Char) : Bool := l.all (fun c => !wsB c)

/-! Helper lemmas about the stable sort. -/

theorem insLe_perm (le : β → β → Bool) (a : β) (l : List β) :
    (insLe le a l).Perm (a :: l) := by
  induction l with
  | nil => exact List.Perm.refl _
  | cons b t ih =>
    simp only [insLe]
    split
    · exact List.Perm.refl _
    · exact (ih.cons b).trans (List.Perm.swap a b t)

theorem isortLe_perm (le : β → β → Bool) (l : List β) :
    (isortLe le l).Perm l := by
  induction l with
  | nil => exact List.Perm.refl _
  | cons a t ih => exact (insLe_perm le a (isortLe le t)).trans (ih.cons a)

theorem withIdx_map_fst (l : List α) : ∀ i, (withIdx l i).map Prod.fst = l := by
  induction l with
  | nil => intro i; rfl
  | cons a t ih => intro i; simp [withIdx, ih]

theorem sortOn_perm (k : α → Int × Int) (l : List α) : (sortOn k l).Perm l := by
  have h := (isortLe_perm (pairLe k) (withIdx l 0)).map Prod.fst
  rw [withIdx_map_fst] at h
  exact h

theorem mem_sortOn {k : α → Int × Int} {l : List α} {r : α} :
    r ∈ sortOn k l ↔ r ∈ l :=
  (sortOn_perm k l).mem_iff

theorem sortOn_length (k : α → Int × Int) (l : List α) :
    (sortOn k l).length = l.length :=
  (sortOn_perm k l).length_eq

theorem insLe_map (f : β → γ) (le : β → β → Bool) (le' : γ → γ → Bool)
    (h : ∀ x y, le' (f x) (f y) = le x y) (a : β) :
    ∀ l : List β, insLe le' (f a) (l.map f) = (insLe le a l).map f := by
  intro l
  induction l with
  | nil => rfl
  | cons b t ih =>
    simp only [List.map_cons, insLe, h]
    split
    · rfl
    · simp [ih]

theorem isortLe_map (f : β → γ) (le : β → β → Bool) (le' : γ → γ → Bool)
    (h : ∀ x y, le' (f x) (f y) = le x y) :
    ∀ l : List β, isortLe le' (l.map f) = (isortLe le l).map f := by
  intro l
  induction l with
  | nil => rfl
  | cons b t ih => simp only [List.map_cons, isortLe, ih, insLe_map f le le' h]

theorem withIdx_map (f : α → γ) :
    ∀ (l : List α) (i : Nat),
      withIdx (l.map f) i = (withIdx l i).map (fun p => (f p.1, p.2)) := by
  intro l
  induction l with
  | nil => intro i; rfl
  | cons a t ih => intro i; simp [withIdx, ih]

theorem sortOn_map (f : α → γ) (k : α → Int × Int) (k' : γ → Int × Int)
    (h : ∀ a, k' (f a) = k a) (l : List α) :
    sortOn k' (l.map f) = (sortOn k l).map f := by
  unfold sortOn
  rw [withIdx_map, isortLe_map (fun p => (f p.1, p.2)) (pairLe k) (pairLe k')
      (by intro x y; simp [pairLe, h])]
  simp [List.map_map, Function.comp]

/-! Helper lemmas about the associator passes. -/

theorem pass1_length_le (ctx : Ctx) (dates : List VDate) :
    ∀ (items : List NameCand) (used : List Nat) (c : Nat),
      (pass1 ctx dates items used c).1.length ≤ items.length := by
  intro items
  induction items with
  | nil => intro used c; simp [pass1]
  | cons it rest ih =>
    intro used c
    simp only [pass1]
    cases findDate it used dates with
    | some p => simpa [Nat.succ_le_succ_iff] using ih (p.1 :: used) (c + 1)
    | none => exact Nat.le_succ_of_le (ih used c)

theorem pass2_length (ctx : Ctx) (remDates : List VDate) :
    ∀ (items : List NameCand) (c idx : Nat),
      (pass2 ctx remDates items c idx).length = items.length := by
  intro items
  induction items with
  | nil => intro c idx; rfl
  | cons it rest ih => intro c idx; simp [pass2, ih]

theorem genericRecs_length (ctx : Ctx) :
    ∀ (l : List VDate) (i : Nat), (genericRecs ctx l i).length = l.length := by
  intro l
  induction l with
  | nil => intro i; rfl
  | cons v vs ih => intro i; simp [genericRecs, ih]

theorem genericRecs_conf (ctx : Ctx) :
    ∀ (l : List VDate) (i : Nat) (r : GroceryRecord),
      r ∈ genericRecs ctx l i → r.confidence = 3/10 := by
  intro l
  induction l with
  | nil => intro i r hr; simp [genericRecs] at hr
  | cons v vs ih =>
    intro i r hr
    rcases List.mem_cons.mp hr with h | h
    · subst h; rfl
    · exact ih (i + 1) r h

theorem genericRecs_names (ctx : Ctx) :
    ∀ (l : List VDate) (i : Nat),
      (genericRecs ctx l i).map (fun r => r.name) =
        (List.range l.length).map (fun j => "Item " ++ Nat.repr (i + j + 1)) := by
  intro l
  induction l with
  | nil => intro i; rfl
  | cons v vs ih =>
    intro i
    simp only [genericRecs, List.map_cons, mkRec, List.length_cons,
      List.range_succ_eq_map, List.map_map, ih]
    refine List.cons_eq_cons.mpr ⟨by norm_num, ?_⟩
    apply List.map_congr_left
    intro j hj
    simp only [Function.comp]
    congr 2
    omega

/-! Helper lemmas about the confidences the extractor can emit. -/

theorem vocabScan_conf (words : List (List Char)) :
    ∀ (v : List String) (it : NameCand), it ∈ vocabScan words v →
      it.confidence = 4/5 := by
  intro v
  induction v with
  | nil => intro it h; simp [vocabScan] at h
  | cons item rest ih =>
    intro it h
    simp only [vocabScan] at h
    split at h
    · rcases List.mem_cons.mp h with h | h
      · subst h; rfl
      · exact ih it h
    · exact ih it h

theorem ctxWordScan_mem :
    ∀ (ws : List (List Char)) (acc : List NameCand) (it : NameCand),
      it ∈ ctxWordScan acc ws → it ∈ acc ∨ it.confidence = 9/10 := by
  intro ws
  induction ws with
  | nil => intro acc it h; exact Or.inl h
  | cons w rest ih =>
    intro acc it h
    simp only [ctxWordScan] at h
    split at h
    · split at h
      · exact ih acc it h
      · rcases ih _ it h with h | h
        · rcases List.mem_append.mp h with h | h
          · exact Or.inl h
          · simp at h
            subst h
            exact Or.inr rfl
        · exact Or.inr h
    · exact ih acc it h

theorem ctxScan_mem :
    ∀ (cs : List String) (acc : List NameCand) (it : NameCand),
      it ∈ ctxScan acc cs → it ∈ acc ∨ it.confidence = 9/10 := by
  intro cs
  induction cs with
  | nil => intro acc it h; exact Or.inl h
  | cons c rest ih =>
    intro acc it h
    rcases ih _ it h with h | h
    · exact ctxWordScan_mem _ acc it h
    · exact Or.inr h

theorem lineScan_conf :
    ∀ (lines : List (List Char)) (it : NameCand), it ∈ lineScan lines →
      it.confidence = 1/2 := by
  intro lines
  induction lines with
  | nil => intro it h; simp [lineScan] at h
  | cons line rest ih =>
    intro it h
    simp only [lineScan] at h
    split at h
    · exact ih it h
    · split at h
      · rcases List.mem_cons.mp h with h | h
        · subst h; rfl
        · exact ih it h
      · exact ih it h

theorem extractItemNames_conf (text : String) (ctxs : List String)
    (it : NameCand) (h : it ∈ extractItemNames text ctxs) :
    it.confidence = 4/5 ∨ it.confidence = 9/10 ∨ it.confidence = 1/2 := by
  simp only [extractItemNames] at h
  split at h
  · exact Or.inr (Or.inr (lineScan_conf _ it h))
  · rcases ctxScan_mem _ _ it h with h | h
    · exact Or.inl (vocabScan_conf _ _ it h)
    · exact Or.inr (Or.inl h)

theorem pass1_conf (ctx : Ctx) (dates : List VDate) :
    ∀ (items : List NameCand) (used : List Nat) (c : Nat),
      (∀ it ∈ items, 0 ≤ it.confidence ∧ it.confidence ≤ 9/10) →
      ∀ r ∈ (pass1 ctx dates items used c).1,
        0 ≤ r.confidence ∧ r.confidence ≤ 11/10 := by
  intro items
  induction items with
  | nil => intro used c _ r hr; simp [pass1] at hr
  | cons it rest ih =>
    intro used c hi r hr
    have hhd := hi it (List.mem_cons_self it rest)
    have htl : ∀ x ∈ rest, 0 ≤ x.confidence ∧ x.confidence ≤ 9/10 :=
      fun x hx => hi x (List.mem_cons_of_mem it hx)
    simp only [pass1] at hr
    cases hfd : findDate it used dates with
    | some p =>
      rw [hfd] at hr
      rcases List.mem_cons.mp hr with h | h
      · subst h
        simp only [mkRec]
        constructor
        · split <;> linarith [hhd.1]
        · split <;> linarith [hhd.2]
      · exact ih (p.1 :: used) (c + 1) htl r h
    | none =>
      rw [hfd] at hr
      exact ih used c htl r hr

theorem pass2_conf (ctx : Ctx) (remDates : List VDate) :
    ∀ (items : List NameCand) (c idx : Nat),
      (∀ it ∈ items, 0 ≤ it.confidence ∧ it.confidence ≤ 9/10) →
      ∀ r ∈ pass2 ctx remDates items c idx,
        0 ≤ r.confidence ∧ r.confidence ≤ 11/10 := by
  intro items
  induction items with
  | nil => intro c idx _ r hr; simp [pass2] at hr
  | cons it rest ih =>
    intro c idx hi r hr
    have hhd := hi it (List.mem_cons_self it rest)
    have htl : ∀ x ∈ rest, 0 ≤ x.confidence ∧ x.confidence ≤ 9/10 :=
      fun x hx => hi x (List.mem_cons_of_mem it hx)
    simp only [pass2] at hr
    rcases List.mem_cons.mp hr with h | h
    · subst h
      cases remDates.get? idx with
      | some v =>
        simp only [mkRec]
        exact ⟨hhd.1, by linarith [hhd.2]⟩
      | none =>
        simp only [mkRec]
        constructor
        · have := mul_nonneg hhd.1 (by norm_num : (0:Rat) ≤ 1/2)
          linarith
        · nlinarith [hhd.1, hhd.2]
    · exact ih (c + 1) (idx + 1) htl r h

/-- C1 counterexample: on the concrete input
`"bre(ad breast exp 12/25/2024"` the pipeline emits a record whose
confidence exceeds 1 (it is 0.9 + 0.2 = 1.1), so the output confidence is
not always within the closed interval [0, 1]. -/
theorem c1_counterexample :
    (processOCRTextJS ctx0 (JSVal.str "bre(ad breast exp 12/25/2024")).any
      (fun r => decide (1 < r.confidence)) = true := by decide

/-- C1 (amended): every record emitted by `processOCRText` has confidence
in the interval [0, 1.1]; the upper end 1.1 (not 1) is reachable because
the name-anchored first pass adds the 0.2 expiry bonus to a 0.9
context-anchored name confidence without clamping. -/
theorem c1_confidence_bounds (ctx : Ctx) (v : JSVal) (r : GroceryRecord)
    (hr : r ∈ processOCRTextJS ctx v) :
    0 ≤ r.confidence ∧ r.confidence ≤ 11/10 := by
  cases v with
  | str s =>
    simp only [processOCRTextJS] at hr
    split at hr
    · simp at hr
    · have hitems : ∀ it ∈ itemsOf ctx s,
          0 ≤ it.confidence ∧ it.confidence ≤ 9/10 := by
        intro it h
        rcases extractItemNames_conf s _ it h with h | h | h <;> rw [h] <;> norm_num
      simp only [processBody, processCore] at hr
      rw [mem_sortOn] at hr
      split at hr
      · have := genericRecs_conf ctx _ 0 r hr
        rw [this]
        norm_num
      · rcases List.mem_append.mp hr with h | h
        · exact pass1_conf ctx _ _ [] 0 hitems r h
        · refine pass2_conf ctx _ _ _ 0 ?_ r h
          intro x hx
          exact hitems x (List.drop_subset _ _ hx)
  | null => simp [processOCRTextJS] at hr
  | undef => simp [processOCRTextJS] at hr
  | num q => simp [processOCRTextJS] at hr
  | bool b => simp [processOCRTextJS] at hr

theorem sortOn_nil (k : α → Int × Int) : sortOn k [] = [] := rfl

theorem sortOn_singleton (k : α → Int × Int) (a : α) : sortOn k [a] = [a] := rfl

/-- C2: on the concrete input
`"milk xxxxxxxxxxxxxxx bread exp 12/25/2024"` the extractor proposes Milk
then Bread; the first pass matches only Bread with the single date, and the
second pass — `itemNames.slice(processedItems.length)`, a slice by count,
not by who matched — then re-processes Bread and silently drops Milk: the
output names are Bread twice and Milk never, violating the pair-
the-unmatched-positionally contract and single consumption of candidates. -/
theorem c2_failing_behavior :
    (processOCRTextJS ctx0
        (JSVal.str "milk xxxxxxxxxxxxxxx bread exp 12/25/2024")).map
      (fun r => r.name) = ["Bread", "Bread"] := by decide

/-- C3 counterexample: the input `"hello"` contains no date-shaped
substring and no vocabulary term, yet the pipeline's line-leading-token
fallback produces a record, so the output is not empty. -/
theorem c3_counterexample :
    processOCRTextJS ctx0 (JSVal.str "hello") ≠ [] := by decide

theorem pass1_nil_dates (ctx : Ctx) :
    ∀ (items : List NameCand) (used : List Nat) (c : Nat),
      pass1 ctx [] items used c = ([], used, c) := by
  intro items
  induction items with
  | nil => intro used c; rfl
  | cons it rest ih =>
    intro used c
    simp only [pass1, findDate, findDateGo]
    exact ih used c

theorem processCore_nil_dates (ctx : Ctx) (items : List NameCand) :
    processCore ctx [] items = sortOn finalKey (pass2 ctx [] items 0 0) := by
  simp only [processCore, pass1_nil_dates]
  simp [filterNotUsed]

theorem pass2_nil_dates_quarter (ctx : Ctx) :
    ∀ (items : List NameCand) (c idx : Nat),
      (∀ it ∈ items, it.confidence = 1/2) →
      ∀ r ∈ pass2 ctx [] items c idx, r.confidence = 1/4 := by
  intro items
  induction items with
  | nil => intro c idx _ r hr; simp [pass2] at hr
  | cons it rest ih =>
    intro c idx hi r hr
    simp only [pass2] at hr
    rw [show ([] : List VDate).get? idx = none from rfl] at hr
    rcases List.mem_cons.mp hr with h | h
    · subst h
      simp only [mkRec]
      rw [hi it (List.mem_cons_self it rest)]
      norm_num
    · exact ih (c + 1) (idx + 1)
        (fun x hx => hi x (List.mem_cons_of_mem it hx)) r h

/-- C3 (amended): on text where no date candidate parses and the whole-text
vocabulary scan matches nothing, the pipeline returns the empty list if and
only if the line-leading-token fallback also yields no candidate; otherwise
the output has exactly one record per fallback candidate (one per line
whose leading token keeps more than two letters), each at confidence
0.25. -/
theorem c3_empty_output (ctx : Ctx) (text : String)
    (hd : validDatesOf ctx text = [])
    (hv : vocabScan (splitWsL (lowerL text.data)) COMMON_ITEMS = []) :
    (processOCRTextJS ctx (JSVal.str text) = [] ↔
      lineScan (splitNlL text.data) = []) ∧
    (processOCRTextJS ctx (JSVal.str text)).length
        = (lineScan (splitNlL text.data)).length ∧
    (∀ r ∈ processOCRTextJS ctx (JSVal.str text), r.confidence = 1/4) := by
  by_cases h0 : text = ""
  · subst h0
    have h1 : processOCRTextJS ctx (JSVal.str "") = [] := rfl
    have h2 : lineScan (splitNlL ("" : String).data) = [] := rfl
    rw [h1, h2]
    exact ⟨⟨fun _ => rfl, fun _ => rfl⟩, rfl,
      fun r hr => absurd hr (List.not_mem_nil r)⟩
  · have hsorted : sortedDatesOf ctx text = [] := by
      rw [sortedDatesOf, hd]
      exact sortOn_nil _
    have hit : itemsOf ctx text = lineScan (splitNlL text.data) := by
      rw [itemsOf, hsorted]
      simp only [List.map_nil, extractItemNames]
      rw [show ctxScan (vocabScan (splitWsL (lowerL text.data)) COMMON_ITEMS)
          ([] : List String)
          = vocabScan (splitWsL (lowerL text.data)) COMMON_ITEMS from rfl, hv]
      rfl
    have hout : processOCRTextJS ctx (JSVal.str text)
        = sortOn finalKey (pass2 ctx [] (lineScan (splitNlL text.data)) 0 0) := by
      simp only [processOCRTextJS, if_neg h0]
      unfold processBody
      rw [hsorted, hit, processCore_nil_dates]
    have hlen : (processOCRTextJS ctx (JSVal.str text)).length
        = (lineScan (splitNlL text.data)).length := by
      rw [hout, sortOn_length, pass2_length]
    refine ⟨?_, hlen, ?_⟩
    · constructor
      · intro h
        rw [h] at hlen
        simp only [List.length_nil] at hlen
        exact List.length_eq_zero.mp hlen.symm
      · intro h
        rw [hout, h]
        rfl
    · intro r hr
      rw [hout] at hr
      rw [mem_sortOn] at hr
      exact pass2_nil_dates_quarter ctx _ 0 0
        (fun it hi => lineScan_conf _ it hi) r hr

/-- C3 witness: the text `"ab cd"` has no date, no vocabulary term, and a
two-letter leading token, so the fallback is empty and the pipeline returns
the empty list. -/
theorem c3_witness :
    validDatesOf ctx0 "ab cd" = [] ∧
    vocabScan (splitWsL (lowerL ("ab cd" : String).data)) COMMON_ITEMS = [] ∧
    ((processOCRTextJS ctx0 (JSVal.str "ab cd") = [] ↔
        lineScan (splitNlL ("ab cd" : String).data) = []) ∧
      (processOCRTextJS ctx0 (JSVal.str "ab cd")).length
          = (lineScan (splitNlL ("ab cd" : String).data)).length ∧
      (∀ r ∈ processOCRTextJS ctx0 (JSVal.str "ab cd"),
        r.confidence = 1/4)) :=
  ⟨by decide, by decide, c3_empty_output ctx0 "ab cd" (by decide) (by decide)⟩

/-- C4 counterexample: for the input `"milk"` (one vocabulary name, no
date) the single output record has confidence 0.4 — half of the whole-text
base confidence 0.8 — and not the 0.25 the claim states. -/
theorem c4_counterexample :
    ((processOCRTextJS ctx0 (JSVal.str "milk")).map (fun r => r.confidence)
        = [2/5]) ∧
    (processOCRTextJS ctx0 (JSVal.str "milk")).map (fun r => r.confidence)
        ≠ [1/4] :=
  ⟨by decide, by decide⟩

/-- C4 (amended): when no date parses and the extractor yields exactly one
candidate at the whole-text confidence 0.8, the output is exactly one
record named after it with expiry date equal to the processing date plus 7
days and confidence 0.4 (half of 0.8, not 0.25). -/
theorem c4_single_name_default (ctx : Ctx) (text : String) (n : String)
    (hd : validDatesOf ctx text = [])
    (hi : itemsOf ctx text = [{ name := n, confidence := 4/5 }]) :
    (processOCRTextJS ctx (JSVal.str text)).map
      (fun r => (r.name, r.expiryDate, r.confidence)) =
      [(n, fmtYmd (addDaysD ctx.today 7), 2/5)] := by
  by_cases h0 : text = ""
  · exfalso
    subst h0
    rw [show itemsOf ctx "" = [] from rfl] at hi
    simp at hi
  · have hsorted : sortedDatesOf ctx text = [] := by
      rw [sortedDatesOf, hd]
      exact sortOn_nil _
    simp only [processOCRTextJS, if_neg h0]
    unfold processBody
    rw [hsorted, hi]
    have hcore : processCore ctx [] [{ name := n, confidence := 4/5 }] =
        [mkRec ctx 0 0 n (fmtYmd (addDaysD ctx.today 7)) (4/5 * (1/2))] := rfl
    rw [hcore]
    simp only [List.map_cons, List.map_nil, mkRec]
    norm_num

/-- C4 witness: the theorem applied to the concrete input `"milk"`. -/
theorem c4_witness :
    validDatesOf ctx0 "milk" = [] ∧
    itemsOf ctx0 "milk" = [{ name := "Milk", confidence := 4/5 }] ∧
    (processOCRTextJS ctx0 (JSVal.str "milk")).map
      (fun r => (r.name, r.expiryDate, r.confidence)) =
      [("Milk", fmtYmd (addDaysD ctx0.today 7), 2/5)] :=
  ⟨by decide, by decide,
   c4_single_name_default ctx0 "milk" "Milk" (by decide) (by decide)⟩

/-- C7: `processOCRText` returns the empty list for every non-string input
(null, undefined, numbers, booleans); together with the totality of every
embedded stage this realizes the guard-plus-catch design that never lets an
error escape. -/
theorem c7_nonstring_empty (ctx : Ctx) (v : JSVal) (h : jsIsString v = false) :
    processOCRTextJS ctx v = [] := by
  cases v with
  | str s => simp [jsIsString] at h
  | null => rfl
  | undef => rfl
  | num q => rfl
  | bool b => rfl

/-- C7 witness: the theorem applied to the null input. -/
theorem c7_witness :
    jsIsString JSVal.null = false ∧ processOCRTextJS ctx0 JSVal.null = [] :=
  ⟨rfl, c7_nonstring_empty ctx0 JSVal.null rfl⟩

theorem isEmpty_false_of_ne_nil {l : List α} (h : l ≠ []) : l.isEmpty = false := by
  cases l with
  | nil => exact absurd rfl h
  | cons a t => rfl

theorem processCore_nil_items (ctx : Ctx) (sorted : List VDate) (hs : sorted ≠ []) :
    processCore ctx sorted [] =
      sortOn finalKey (genericRecs ctx (sorted.take 3) 0) := by
  simp [processCore, pass1, pass2, isEmpty_false_of_ne_nil hs]

theorem processCore_ne_nil_of_items (ctx : Ctx) (sorted : List VDate)
    (items : List NameCand) (hne : items ≠ []) :
    processCore ctx sorted items ≠ [] := by
  have h1 := pass1_length_le ctx sorted items [] 0
  have hlen :
      ((pass1 ctx sorted items [] 0).1 ++
        pass2 ctx (filterNotUsed (pass1 ctx sorted items [] 0).2.1 sorted 0)
          (items.drop (pass1 ctx sorted items [] 0).1.length)
          (pass1 ctx sorted items [] 0).2.2 0).length = items.length := by
    rw [List.length_append, pass2_length, List.length_drop]
    omega
  have hne2 :
      ((pass1 ctx sorted items [] 0).1 ++
        pass2 ctx (filterNotUsed (pass1 ctx sorted items [] 0).2.1 sorted 0)
          (items.drop (pass1 ctx sorted items [] 0).1.length)
          (pass1 ctx sorted items [] 0).2.2 0) ≠ [] := by
    intro hc
    rw [hc] at hlen
    exact hne (List.length_eq_zero.mp hlen.symm)
  simp only [processCore, isEmpty_false_of_ne_nil hne2, Bool.false_and,
    if_neg (by simp : ¬(false = true))]
  intro hc
  have := sortOn_length finalKey
    ((pass1 ctx sorted items [] 0).1 ++
      pass2 ctx (filterNotUsed (pass1 ctx sorted items [] 0).2.1 sorted 0)
        (items.drop (pass1 ctx sorted items [] 0).1.length)
        (pass1 ctx sorted items [] 0).2.2 0)
  rw [hc, hlen] at this
  exact hne (List.length_eq_zero.mp this.symm)

/-- C6: when the extractor yields no name candidates (so the two association
passes produce no records) but at least one date parsed, the pipeline emits
min(3, number of valid dates) generic records, all at confidence 0.3, whose
names are exactly "Item 1".."Item k"; and the output is non-empty whenever
any date parsed at all. -/
theorem c6_orphan_dates (ctx : Ctx) (text : String) :
    (itemsOf ctx text = [] → validDatesOf ctx text ≠ [] →
      (processOCRTextJS ctx (JSVal.str text)).length
          = min 3 (validDatesOf ctx text).length ∧
      (∀ r ∈ processOCRTextJS ctx (JSVal.str text), r.confidence = 3/10) ∧
      ((processOCRTextJS ctx (JSVal.str text)).map (fun r => r.name)).Perm
        ((List.range (min 3 (validDatesOf ctx text).length)).map
          (fun j => "Item " ++ Nat.repr (j + 1)))) ∧
    (validDatesOf ctx text ≠ [] → processOCRTextJS ctx (JSVal.str text) ≠ []) := by
  by_cases h0 : text = ""
  · subst h0
    have hd : validDatesOf ctx "" = [] := rfl
    exact ⟨fun _ hv => absurd hd hv, fun hv => absurd hd hv⟩
  · have hslen : (sortedDatesOf ctx text).length = (validDatesOf ctx text).length :=
      sortOn_length _ _
    constructor
    · intro hi hv
      have hsne : sortedDatesOf ctx text ≠ [] := by
        intro hc
        rw [hc] at hslen
        exact hv (List.length_eq_zero.mp hslen.symm)
      have hout : processOCRTextJS ctx (JSVal.str text) =
          sortOn finalKey (genericRecs ctx ((sortedDatesOf ctx text).take 3) 0) := by
        simp only [processOCRTextJS, if_neg h0]
        unfold processBody
        rw [hi]
        exact processCore_nil_items ctx _ hsne
      rw [hout]
      refine ⟨?_, ?_, ?_⟩
      · rw [sortOn_length, genericRecs_length, List.length_take, hslen]
      · intro r hr
        rw [mem_sortOn] at hr
        exact genericRecs_conf ctx _ 0 r hr
      · have hperm := (sortOn_perm finalKey
          (genericRecs ctx ((sortedDatesOf ctx text).take 3) 0)).map
            (fun r => r.name)
        rw [genericRecs_names] at hperm
        refine hperm.trans ?_
        rw [List.length_take, hslen]
        apply List.Perm.of_eq
        apply List.map_congr_left
        intro j hj
        congr 2
        omega
    · intro hv
      simp only [processOCRTextJS, if_neg h0]
      unfold processBody
      by_cases hi : itemsOf ctx text = []
      · rw [hi]
        have hsne : sortedDatesOf ctx text ≠ [] := by
          intro hc
          rw [hc] at hslen
          exact hv (List.length_eq_zero.mp hslen.symm)
        rw [processCore_nil_items ctx _ hsne]
        intro hc
        have := sortOn_length finalKey
          (genericRecs ctx ((sortedDatesOf ctx text).take 3) 0)
        rw [hc, genericRecs_length, List.length_take, hslen] at this
        have hvp : 0 < (validDatesOf ctx text).length :=
          List.length_pos.mpr hv
        have h3 : 0 < min 3 (validDatesOf ctx text).length :=
          lt_min_iff.mpr ⟨by norm_num, hvp⟩
        simp only [List.length_nil] at this
        exact (Nat.ne_of_gt h3) this.symm
      · exact processCore_ne_nil_of_items ctx _ _ hi

/-- C6 witness: on the spec's example input of three bare ISO dates the
pipeline returns exactly three generic records at confidence 0.3 named
"Item 1", "Item 2", "Item 3". -/
theorem c6_witness :
    itemsOf ctx0 "2024-12-20\n2024-12-22\n2024-12-25" = [] ∧
    validDatesOf ctx0 "2024-12-20\n2024-12-22\n2024-12-25" ≠ [] ∧
    ((processOCRTextJS ctx0 (JSVal.str "2024-12-20\n2024-12-22\n2024-12-25")).length
        = min 3 (validDatesOf ctx0 "2024-12-20\n2024-12-22\n2024-12-25").length ∧
      (∀ r ∈ processOCRTextJS ctx0 (JSVal.str "2024-12-20\n2024-12-22\n2024-12-25"),
        r.confidence = 3/10) ∧
      ((processOCRTextJS ctx0
          (JSVal.str "2024-12-20\n2024-12-22\n2024-12-25")).map (fun r => r.name)).Perm
        ((List.range (min 3
            (validDatesOf ctx0 "2024-12-20\n2024-12-22\n2024-12-25").length)).map
          (fun j => "Item " ++ Nat.repr (j + 1)))) :=
  ⟨by decide, by decide,
   (c6_orphan_dates ctx0 "2024-12-20\n2024-12-22\n2024-12-25").1
     (by decide) (by decide)⟩

theorem isEmpty_eq_of_length_eq {l1 l2 : List α} (h : l1.length = l2.length) :
    l1.isEmpty = l2.isEmpty := by
  cases l1 <;> cases l2 <;> simp_all

theorem pass1_erase (n : Int) (t : CalDate) (r1 r2 : Nat → Rat) (dates : List VDate) :
    ∀ (items : List NameCand) (used : List Nat) (c1 c2 : Nat),
      ((pass1 ⟨n, t, r1⟩ dates items used c1).1.map eraseId
        = (pass1 ⟨n, t, r2⟩ dates items used c2).1.map eraseId) ∧
      (pass1 ⟨n, t, r1⟩ dates items used c1).2.1
        = (pass1 ⟨n, t, r2⟩ dates items used c2).2.1 := by
  intro items
  induction items with
  | nil => intro used c1 c2; exact ⟨rfl, rfl⟩
  | cons it rest ih =>
    intro used c1 c2
    simp only [pass1]
    cases findDate it used dates with
    | some p =>
      have h := ih (p.1 :: used) (c1 + 1) (c2 + 1)
      refine ⟨?_, h.2⟩
      simp only [List.map_cons]
      rw [h.1]
      rfl
    | none => exact ih used c1 c2

theorem pass2_erase (n : Int) (t : CalDate) (r1 r2 : Nat → Rat)
    (remDates : List VDate) :
    ∀ (items : List NameCand) (c1 c2 idx : Nat),
      (pass2 ⟨n, t, r1⟩ remDates items c1 idx).map eraseId
        = (pass2 ⟨n, t, r2⟩ remDates items c2 idx).map eraseId := by
  intro items
  induction items with
  | nil => intro c1 c2 idx; rfl
  | cons it rest ih =>
    intro c1 c2 idx
    simp only [pass2, List.map_cons]
    rw [ih (c1 + 1) (c2 + 1) (idx + 1)]
    cases remDates.get? idx <;> rfl

theorem genericRecs_erase (n : Int) (t : CalDate) (r1 r2 : Nat → Rat) :
    ∀ (l : List VDate) (idx : Nat),
      (genericRecs ⟨n, t, r1⟩ l idx).map eraseId
        = (genericRecs ⟨n, t, r2⟩ l idx).map eraseId := by
  intro l
  induction l with
  | nil => intro idx; rfl
  | cons v vs ih =>
    intro idx
    simp only [genericRecs, List.map_cons]
    rw [ih (idx + 1)]
    rfl

theorem processCore_erase (n : Int) (t : CalDate) (r1 r2 : Nat → Rat)
    (sorted : List VDate) (items : List NameCand) :
    (processCore ⟨n, t, r1⟩ sorted items).map eraseId
      = (processCore ⟨n, t, r2⟩ sorted items).map eraseId := by
  have hp1 := pass1_erase n t r1 r2 sorted items [] 0 0
  have hlen : (pass1 ⟨n, t, r1⟩ sorted items [] 0).1.length
      = (pass1 ⟨n, t, r2⟩ sorted items [] 0).1.length := by
    have h := congrArg List.length hp1.1
    simpa using h
  have hall : ((pass1 ⟨n, t, r1⟩ sorted items [] 0).1
      ++ pass2 ⟨n, t, r1⟩
          (filterNotUsed (pass1 ⟨n, t, r1⟩ sorted items [] 0).2.1 sorted 0)
          (items.drop (pass1 ⟨n, t, r1⟩ sorted items [] 0).1.length)
          (pass1 ⟨n, t, r1⟩ sorted items [] 0).2.2 0).map eraseId
      = ((pass1 ⟨n, t, r2⟩ sorted items [] 0).1
      ++ pass2 ⟨n, t, r2⟩
          (filterNotUsed (pass1 ⟨n, t, r2⟩ sorted items [] 0).2.1 sorted 0)
          (items.drop (pass1 ⟨n, t, r2⟩ sorted items [] 0).1.length)
          (pass1 ⟨n, t, r2⟩ sorted items [] 0).2.2 0).map eraseId := by
    rw [List.map_append, List.map_append, hp1.1, hlen, hp1.2,
      pass2_erase n t r1 r2]
  have hemplen := congrArg List.length hall
  simp only [List.length_map] at hemplen
  have hemp := isEmpty_eq_of_length_eq hemplen
  simp only [processCore]
  rw [← sortOn_map eraseId finalKey finalKeyE (fun r => rfl),
      ← sortOn_map eraseId finalKey finalKeyE (fun r => rfl)]
  congr 1
  rw [apply_ite (List.map eraseId), apply_ite (List.map eraseId), hemp, hall,
      genericRecs_erase n t r1 r2]

/-- C9 counterexample: two invocations on the same input `"12/25/2024"`
whose `Math.random()` streams differ (the clock and processing date being
equal) return different output lists — the generic record's id field
differs — so the full call is not a deterministic function of the input
text alone. -/
theorem c9_counterexample :
    processOCRTextJS ctx0 (JSVal.str "12/25/2024")
      ≠ processOCRTextJS ctx1 (JSVal.str "12/25/2024") := by decide

/-- C9 (amended): with the processing instant fixed, the pipeline is
deterministic in everything except the `Math.random()`-fed id field: two
invocations at the same clock and date with arbitrary random streams agree
on every record after erasing ids (same names, expiry dates, added dates,
confidences, in the same order). -/
theorem c9_deterministic_mod_ids (n : Int) (t : CalDate) (r1 r2 : Nat → Rat)
    (v : JSVal) :
    (processOCRTextJS ⟨n, t, r1⟩ v).map eraseId
      = (processOCRTextJS ⟨n, t, r2⟩ v).map eraseId := by
  cases v with
  | str s =>
    by_cases hs : s = ""
    · simp [processOCRTextJS, hs]
    · simp only [processOCRTextJS, if_neg hs]
      unfold processBody
      have hsorted : sortedDatesOf ⟨n, t, r2⟩ s = sortedDatesOf ⟨n, t, r1⟩ s := rfl
      have hitems : itemsOf ⟨n, t, r2⟩ s = itemsOf ⟨n, t, r1⟩ s := rfl
      rw [hsorted, hitems]
      exact processCore_erase n t r1 r2 _ _
  | null => rfl
  | undef => rfl
  | num q => rfl
  | bool b => rfl

/-! Digit-rendering lemmas shared by the date round-trip proofs. -/

theorem dChar_isDigit (k : Nat) : (dChar k).isDigit = true := by
  unfold dChar
  rcases k with _ | _ | _ | _ | _ | _ | _ | _ | _ | k <;> rfl

theorem toDigit_dChar (k : Nat) (h : k ≤ 9) : toDigit (dChar k) = k := by
  interval_cases k <;> rfl

theorem digsVal_pair0 (m : Nat) (h : m ≤ 9) :
    digsVal ['0', dChar m] = m := by
  simp only [digsVal, List.foldl]
  rw [toDigit_dChar m h, show toDigit '0' = 0 from rfl]
  omega

theorem digsVal_pair (m : Nat) (h : m < 100) (h2 : ¬m < 10) :
    digsVal [dChar (m / 10), dChar (m % 10)] = m := by
  simp only [digsVal, List.foldl]
  rw [toDigit_dChar (m / 10) (by omega), toDigit_dChar (m % 10) (by omega)]
  omega

theorem digsVal_pad2 (m : Nat) (h : m < 100) : digsVal (pad2 m) = m := by
  unfold pad2
  split
  · exact digsVal_pair0 m (by omega)
  · exact digsVal_pair m h (by omega)

theorem digsVal_pad4 (y : Nat) (h : y < 10000) : digsVal (pad4 y) = y := by
  simp only [pad4, digsVal, List.foldl]
  rw [toDigit_dChar (y / 1000) (by omega), toDigit_dChar (y / 100 % 10) (by omega),
    toDigit_dChar (y / 10 % 10) (by omega), toDigit_dChar (y % 10) (by omega)]
  omega

theorem pad2_length (m : Nat) : (pad2 m).length = 2 := by
  unfold pad2
  split <;> rfl

theorem pad2_digits (m : Nat) : ∀ c ∈ pad2 m, c.isDigit = true := by
  intro c hc
  unfold pad2 at hc
  split at hc <;> simp only [List.mem_cons, List.not_mem_nil, or_false] at hc <;>
    rcases hc with h | h <;> subst h <;> first | rfl | exact dChar_isDigit _

theorem pad4_digits (y : Nat) : ∀ c ∈ pad4 y, c.isDigit = true := by
  intro c hc
  simp only [pad4, List.mem_cons, List.not_mem_nil, or_false] at hc
  rcases hc with h | h | h | h <;> subst h <;> exact dChar_isDigit _

theorem daysInMonth_le (y : Int) (m : Nat) : daysInMonth y m ≤ 31 := by
  rcases m with _ | _ | _ | _ | _ | _ | _ | _ | _ | _ | _ | _ | _ | m <;>
    simp only [daysInMonth] <;> first | omega | (split <;> omega)

/-- Round-trip of the canonical rendering through the host's strict ISO
parse: `new Date(format(dt, 'yyyy-MM-dd'))` recovers `dt` for in-range
dates. -/
theorem parseIso_fmtYmd (dt : CalDate) (h : validYmdB dt = true) :
    parseIso (fmtYmd dt).data = some dt := by
  obtain ⟨y, m, d⟩ := dt
  simp only [validYmdB, Bool.and_eq_true, decide_eq_true_eq] at h
  obtain ⟨⟨⟨⟨⟨hy0, hy1⟩, hm1⟩, hm2⟩, hd1⟩, hd2⟩ := h
  have hyn : y.toNat < 10000 := by omega
  have hmn : m < 100 := by omega
  have hdn : d < 100 := by
    have := daysInMonth_le y m
    omega
  have hcast : ((y.toNat : Nat) : Int) = y := Int.toNat_of_nonneg hy0
  show parseIso (padY y ++ '-' :: pad2 m ++ '-' :: pad2 d) = some ⟨y, m, d⟩
  rw [show padY y = pad4 y.toNat from by unfold padY; rw [if_pos hyn]]
  unfold pad4
  unfold pad2
  split <;> split <;>
  · simp only [List.cons_append, List.nil_append]
    simp only [parseIso, dChar_isDigit]
    norm_num [dChar_isDigit]
    rw [show digsVal [dChar (y.toNat / 1000), dChar (y.toNat / 100 % 10),
          dChar (y.toNat / 10 % 10), dChar (y.toNat % 10)]
        = digsVal (pad4 y.toNat) from rfl, digsVal_pad4 _ hyn]
    first
    | rw [digsVal_pair0 m (by omega), digsVal_pair0 d (by omega)]
    | rw [digsVal_pair0 m (by omega), digsVal_pair d hdn (by omega)]
    | rw [digsVal_pair m hmn (by omega), digsVal_pair0 d (by omega)]
    | rw [digsVal_pair m hmn (by omega), digsVal_pair d hdn (by omega)]
    simp [hcast, hm1, hm2, hd1, hd2]

theorem fmtYmd_ne_empty (dt : CalDate) (h : validYmdB dt = true) :
    fmtYmd dt ≠ "" := by
  intro hc
  have hpi := parseIso_fmtYmd dt h
  rw [hc] at hpi
  simp [parseIso] at hpi

/-- C5: the validator is idempotent — on a record that is already canonical
(truthy id, non-empty trimmed name of at most 50 characters, expiry date
the canonical rendering of an in-range calendar date, added date equal to
the processing date, confidence a number in [0, 1]) it returns the record
unchanged. -/
theorem c5_validator_idempotent (ctx : Ctx) (r : GroceryRecord) (dt : CalDate)
    (hid : r.id ≠ 0)
    (hname : trimL r.name.data = r.name.data)
    (hne : r.name ≠ "")
    (hlen : r.name.data.length ≤ 50)
    (hv : validYmdB dt = true)
    (hexp : r.expiryDate = fmtYmd dt)
    (hadd : r.addedDate = fmtYmd ctx.today)
    (hc0 : 0 ≤ r.confidence) (hc1 : r.confidence ≤ 1) :
    validateExtractedItem ctx (toRaw r) = some r := by
  have hnp : nativeParse (fmtYmd dt).data = some dt := by
    unfold nativeParse
    rw [parseIso_fmtYmd dt hv]
  have hfne := fmtYmd_ne_empty dt hv
  have hmk : String.mk ((trimL r.name.data).take 50) = r.name := by
    rw [hname, List.take_of_length_le hlen]
  simp only [validateExtractedItem, toRaw]
  rw [hexp]
  simp only [if_neg hne, if_neg hfne, if_neg hid, hnp, hmk]
  rw [if_pos ⟨hc0, hc1⟩, ← hexp, ← hadd]

/-- C5 witness: the theorem applied to a concrete canonical record. -/
theorem c5_witness :
    validateExtractedItem ctx0 (toRaw
      { id := 1, name := "Milk", expiryDate := "2024-12-25",
        addedDate := "2024-12-21", confidence := 4/5 }) =
      some { id := 1, name := "Milk", expiryDate := "2024-12-25",
             addedDate := "2024-12-21", confidence := 4/5 } :=
  c5_validator_idempotent ctx0
    { id := 1, name := "Milk", expiryDate := "2024-12-25",
      addedDate := "2024-12-21", confidence := 4/5 }
    ⟨2024, 12, 25⟩ (by decide) (by decide) (by decide) (by decide)
    (by decide) (by decide) (by decide) (by decide) (by decide)

/-- C10: for an input record whose name survives trimming and truncation
but whose expiry date is absent or the empty string, the validator does not
reject and does not apply the 7-day repair: it returns a record whose
expiryDate is the empty (non-canonical) string. -/
theorem c10_absent_expiry (ctx : Ctx) (item : RawItem) (s : String)
    (hn : item.name = some s) (hs : s ≠ "")
    (ht : String.mk ((trimL s.data).take 50) ≠ "")
    (he : item.expiryDate = none ∨ item.expiryDate = some "") :
    (validateExtractedItem ctx item).map (fun r => r.expiryDate) = some "" := by
  simp only [validateExtractedItem, hn, if_neg hs]
  rcases he with he | he <;> rw [he] <;> simp [if_neg ht]

/-- C10 witness: the theorem applied to a name-only raw item. -/
theorem c10_witness :
    (({ name := some "Milk" } : RawItem).name = some "Milk") ∧
    ("Milk" : String) ≠ "" ∧
    String.mk ((trimL "Milk".data).take 50) ≠ "" ∧
    (validateExtractedItem ctx0 { name := some "Milk" }).map
      (fun r => r.expiryDate) = some "" :=
  ⟨rfl, by decide, by decide,
   c10_absent_expiry ctx0 { name := some "Milk" } "Milk" rfl (by decide)
     (by decide) (Or.inl rfl)⟩

/-! Lemmas for the separator round-trip of the numeric date shape. -/

theorem dChar_not_ws (k : Nat) : wsB (dChar k) = false := by
  unfold dChar
  rcases k with _ | _ | _ | _ | _ | _ | _ | _ | _ | k <;> rfl

theorem pad2_ne_nil (m : Nat) : pad2 m ≠ [] := by
  unfold pad2
  split <;> simp

theorem pad4_ne_nil (y : Nat) : pad4 y ≠ [] := by
  simp [pad4]

theorem pad2_not_ws (m : Nat) : ∀ c ∈ pad2 m, wsB c = false := by
  intro c hc
  unfold pad2 at hc
  split at hc <;> simp only [List.mem_cons, List.not_mem_nil, or_false] at hc <;>
    rcases hc with h | h <;> subst h <;> first | rfl | exact dChar_not_ws _

theorem pad4_not_ws (y : Nat) : ∀ c ∈ pad4 y, wsB c = false := by
  intro c hc
  simp only [pad4, List.mem_cons, List.not_mem_nil, or_false] at hc
  rcases hc with h | h | h | h <;> subst h <;> exact dChar_not_ws _

theorem dropWhile_eq_self_of_all {p : Char → Bool} (l : List Char)
    (h : ∀ c ∈ l, p c = false) : l.dropWhile p = l := by
  cases l with
  | nil => rfl
  | cons c t =>
    simp only [List.dropWhile_cons, h c (List.mem_cons_self c t)]
    simp

theorem trimL_eq_self (l : List Char) (h : ∀ c ∈ l, wsB c = false) :
    trimL l = l := by
  unfold trimL
  rw [dropWhile_eq_self_of_all l h,
    dropWhile_eq_self_of_all l.reverse (fun c hc => h c (List.mem_reverse.mp hc)),
    List.reverse_reverse]

theorem takeWhile_digits_append (a b : List Char)
    (ha : ∀ c ∈ a, c.isDigit = true) (hb : headND b) :
    (a ++ b).takeWhile Char.isDigit = a := by
  induction a with
  | nil =>
    cases b with
    | nil => rfl
    | cons c t =>
      simp only [List.nil_append, List.takeWhile_cons]
      rw [show c.isDigit = false from hb]
      simp
  | cons c t ih =>
    simp only [List.cons_append, List.takeWhile_cons,
      ha c (List.mem_cons_self c t)]
    rw [ih (fun x hx => ha x (List.mem_cons_of_mem c hx))]
    simp

theorem takeDigs_of_all (n : Nat) (a b : List Char)
    (hn : a.length ≤ n) (ha : ∀ c ∈ a, c.isDigit = true) (hb : headND b)
    (hane : a ≠ []) :
    takeDigs n (a ++ b) = some (digsVal a, b) := by
  unfold takeDigs
  rw [takeWhile_digits_append a b ha hb, List.take_of_length_le hn]
  simp [isEmpty_false_of_ne_nil hane, List.drop_left]

theorem takeDigs_two_of_four (a : List Char)
    (ha : ∀ c ∈ a, c.isDigit = true) (hlen : a.length = 4) :
    takeDigs 2 a = some (digsVal (a.take 2), a.drop 2) := by
  unfold takeDigs
  rw [show a.takeWhile Char.isDigit = a from by
      have := takeWhile_digits_append a [] ha trivial
      rwa [List.append_nil] at this]
  have h2 : (a.take 2).length = 2 := by rw [List.length_take]; omega
  have hne : a.take 2 ≠ [] := by
    intro hc
    rw [hc] at h2
    simp at h2
  simp [isEmpty_false_of_ne_nil hne, h2]

theorem monMatchGo_dChar_abbr (k : Nat) (rest : List Char) :
    monMatchGo monthAbbrs 1 (dChar k :: rest) = none := by
  unfold dChar
  rcases k with _ | _ | _ | _ | _ | _ | _ | _ | _ | k <;> rfl

theorem monMatchGo_dChar_wide (k : Nat) (rest : List Char) :
    monMatchGo monthWides 1 (dChar k :: rest) = none := by
  unfold dChar
  rcases k with _ | _ | _ | _ | _ | _ | _ | _ | _ | k <;> rfl

theorem monMatchGo_pad2_abbr (m : Nat) (b : List Char) :
    monMatchGo monthAbbrs 1 (pad2 m ++ b) = none := by
  unfold pad2
  split
  · exact monMatchGo_dChar_abbr 0 _
  · exact monMatchGo_dChar_abbr (m / 10) _

theorem monMatchGo_pad2_wide (m : Nat) (b : List Char) :
    monMatchGo monthWides 1 (pad2 m ++ b) = none := by
  unfold pad2
  split
  · exact monMatchGo_dChar_wide 0 _
  · exact monMatchGo_dChar_wide (m / 10) _

theorem digsOf2_cases (p : Bool) (n : Nat) :
    digsOf2 p n = pad2 n ∨ (n ≤ 9 ∧ digsOf2 p n = [dChar n]) := by
  unfold digsOf2
  split
  · exact Or.inl rfl
  · split
    · exact Or.inl rfl
    · exact Or.inr ⟨by omega, rfl⟩

theorem digsVal_single (n : Nat) (h : n ≤ 9) : digsVal [dChar n] = n := by
  simp only [digsVal, List.foldl]
  rw [toDigit_dChar n h]
  omega

theorem digsOf2_length_le (p : Bool) (n : Nat) : (digsOf2 p n).length ≤ 2 := by
  rcases digsOf2_cases p n with h | ⟨_, h⟩ <;> rw [h]
  · simp [pad2_length]
  · simp

theorem digsOf2_ne_nil (p : Bool) (n : Nat) : digsOf2 p n ≠ [] := by
  rcases digsOf2_cases p n with h | ⟨_, h⟩ <;> rw [h]
  · exact pad2_ne_nil n
  · simp

theorem digsOf2_digits (p : Bool) (n : Nat) :
    ∀ c ∈ digsOf2 p n, c.isDigit = true := by
  rcases digsOf2_cases p n with h | ⟨_, h⟩ <;> rw [h]
  · exact pad2_digits n
  · intro c hc
    simp only [List.mem_singleton] at hc
    subst hc
    exact dChar_isDigit n

theorem digsOf2_not_ws (p : Bool) (n : Nat) :
    ∀ c ∈ digsOf2 p n, wsB c = false := by
  rcases digsOf2_cases p n with h | ⟨_, h⟩ <;> rw [h]
  · exact pad2_not_ws n
  · intro c hc
    simp only [List.mem_singleton] at hc
    subst hc
    exact dChar_not_ws n

theorem digsVal_digsOf2 (p : Bool) (n : Nat) (h : n < 100) :
    digsVal (digsOf2 p n) = n := by
  rcases digsOf2_cases p n with h2 | ⟨h1, h2⟩ <;> rw [h2]
  · exact digsVal_pad2 n h
  · exact digsVal_single n h1

theorem monMatchGo_digsOf2_abbr (p : Bool) (n : Nat) (b : List Char) :
    monMatchGo monthAbbrs 1 (digsOf2 p n ++ b) = none := by
  rcases digsOf2_cases p n with h | ⟨_, h⟩ <;> rw [h]
  · exact monMatchGo_pad2_abbr n b
  · exact monMatchGo_dChar_abbr n b

theorem monMatchGo_digsOf2_wide (p : Bool) (n : Nat) (b : List Char) :
    monMatchGo monthWides 1 (digsOf2 p n ++ b) = none := by
  rcases digsOf2_cases p n with h | ⟨_, h⟩ <;> rw [h]
  · exact monMatchGo_pad2_wide n b
  · exact monMatchGo_dChar_wide n b

theorem pad2_shape (n : Nat) :
    ∃ c1 c2, pad2 n = [c1, c2] ∧ c1.isDigit = true ∧ c2.isDigit = true := by
  unfold pad2
  split
  · exact ⟨'0', dChar n, rfl, rfl, dChar_isDigit n⟩
  · exact ⟨dChar (n / 10), dChar (n % 10), rfl, dChar_isDigit _, dChar_isDigit _⟩

theorem digsOf2_shape (p : Bool) (n : Nat) :
    (∃ c1 c2, digsOf2 p n = [c1, c2] ∧ c1.isDigit = true ∧ c2.isDigit = true) ∨
    (∃ c1, digsOf2 p n = [c1] ∧ c1.isDigit = true) := by
  rcases digsOf2_cases p n with h | ⟨_, h⟩
  · rcases pad2_shape n with ⟨c1, c2, he, h1, h2⟩
    exact Or.inl ⟨c1, c2, h.trans he, h1, h2⟩
  · exact Or.inr ⟨dChar n, h, dChar_isDigit n⟩

theorem parseIso_numDash (pm pd : Bool) (m d y : Nat) :
    parseIso (digsOf2 pm m ++ '-' :: (digsOf2 pd d ++ '-' :: pad4 y)) = none := by
  rcases digsOf2_shape pm m with ⟨a1, a2, hm, hma, hmb⟩ | ⟨a1, hm, hma⟩ <;>
    rcases digsOf2_shape pd d with ⟨b1, b2, hdd, hba, hbb⟩ | ⟨b1, hdd, hba⟩ <;>
      rw [hm, hdd] <;>
        simp_all [pad4, parseIso, dChar_isDigit,
          show ('-' : Char).isDigit = false from rfl]

/-- C8 counterexample: the numeric month/day/year shape also admits
two-digit years, and there the separator changes the resolved date:
`"12/05/24"` parses under the first format (`yyyy` accepts 1–4 digits) as
December 5 of year 24, while `"12-05-24"` parses under `yyyy-MM-dd` as
May 24 of year 12 — different calendar dates for the same written date. -/
theorem c8_counterexample :
    parseDate ctx0.today "12/05/24" = some ⟨24, 12, 5⟩ ∧
    parseDate ctx0.today "12-05-24" = some ⟨12, 5, 24⟩ :=
  ⟨by decide, by decide⟩

/-- C8 (amended): for every valid calendar date written in the numeric
month/day/year shape with a four-digit year — month and day written with
or without a leading zero — `parseDate` resolves the slash and the dash
spelling to the same calendar date (the slash form through the first
explicit format, the dash form through the generic fallback parse). For
two-digit years the two spellings are read under different formats and can
resolve to different calendar dates, as the counterexample shows, so the
original claim holds only for the four-digit-year spellings. -/
theorem c8_separator_agnostic (today : CalDate) (pm pd : Bool) (m d y : Nat)
    (hm1 : 1 ≤ m) (hm2 : m ≤ 12) (hd1 : 1 ≤ d)
    (hd2 : d ≤ daysInMonth (y : Int) m) (hy1 : 1000 ≤ y) (hy2 : y ≤ 9999) :
    parseDate today (numDateStr pm pd '/' m d y) = some ⟨(y : Int), m, d⟩ ∧
    parseDate today (numDateStr pm pd '-' m d y) = some ⟨(y : Int), m, d⟩ := by
  have hm100 : m < 100 := by omega
  have hd100 : d < 100 := by
    have := daysInMonth_le (y : Int) m
    omega
  have hy4 : y < 10000 := by omega
  have hy0 : y ≠ 0 := by omega
  have hnws : ∀ sep : Char, wsB sep = false →
      ∀ c ∈ digsOf2 pm m ++ sep :: (digsOf2 pd d ++ sep :: pad4 y),
        wsB c = false := by
    intro sep hsep c hc
    simp only [List.mem_append, List.mem_cons] at hc
    rcases hc with h | h | h | h | h
    · exact digsOf2_not_ws pm m c h
    · subst h; exact hsep
    · exact digsOf2_not_ws pd d c h
    · subst h; exact hsep
    · exact pad4_not_ws y c h
  have e1 : ∀ (n : Nat) (sep : Char), 2 ≤ n → sep.isDigit = false →
      takeDigs n (digsOf2 pm m ++ sep :: (digsOf2 pd d ++ sep :: pad4 y))
        = some (m, sep :: (digsOf2 pd d ++ sep :: pad4 y)) := by
    intro n sep hn hsep
    rw [takeDigs_of_all n (digsOf2 pm m)
      (sep :: (digsOf2 pd d ++ sep :: pad4 y))
      (le_trans (digsOf2_length_le pm m) hn) (digsOf2_digits pm m)
      (show headND (sep :: (digsOf2 pd d ++ sep :: pad4 y)) from hsep)
      (digsOf2_ne_nil pm m), digsVal_digsOf2 pm m hm100]
  have e2 : ∀ (n : Nat) (sep : Char), 2 ≤ n → sep.isDigit = false →
      takeDigs n (digsOf2 pd d ++ sep :: pad4 y) = some (d, sep :: pad4 y) := by
    intro n sep hn hsep
    rw [takeDigs_of_all n (digsOf2 pd d) (sep :: pad4 y)
      (le_trans (digsOf2_length_le pd d) hn) (digsOf2_digits pd d)
      (show headND (sep :: pad4 y) from hsep)
      (digsOf2_ne_nil pd d), digsVal_digsOf2 pd d hd100]
  have e3 : ∀ n : Nat, 4 ≤ n → takeDigs n (pad4 y) = some (y, []) := by
    intro n hn
    have h := takeDigs_of_all n (pad4 y) [] (by simp [pad4]; omega)
      (pad4_digits y) trivial (pad4_ne_nil y)
    rw [List.append_nil] at h
    rw [h, digsVal_pad4 y hy4]
  have e4 : takeDigs 2 (pad4 y)
      = some (digsVal ((pad4 y).take 2), (pad4 y).drop 2) :=
    takeDigs_two_of_four (pad4 y) (pad4_digits y) rfl
  constructor
  · -- slash spelling: the first explicit format fires
    have htrim : trimL (numDateStr pm pd '/' m d y).data
        = digsOf2 pm m ++ '/' :: (digsOf2 pd d ++ '/' :: pad4 y) :=
      trimL_eq_self _ (hnws '/' rfl)
    have hrun : runToks [FTok.numM, FTok.litC '/', FTok.numD, FTok.litC '/', FTok.numY4]
        (digsOf2 pm m ++ '/' :: (digsOf2 pd d ++ '/' :: pad4 y)) {}
        = some ⟨some y, false, some m, some d⟩ := by
      simp [runToks, e1 2 '/' (by omega) rfl, e2 2 '/' (by omega) rfl,
        e3 4 (by omega)]
    simp [parseDate, dfParse, dfFormats, firstSome, htrim, hrun, finishFmt,
      hm1, hm2, hd1, hd2, hy0]
  · -- dash spelling: all twelve formats fail, the generic fallback fires
    have htrim : trimL (numDateStr pm pd '-' m d y).data
        = digsOf2 pm m ++ '-' :: (digsOf2 pd d ++ '-' :: pad4 y) :=
      trimL_eq_self _ (hnws '-' rfl)
    have hg1 : runToks [FTok.numM, FTok.litC '/', FTok.numD, FTok.litC '/', FTok.numY4]
        (digsOf2 pm m ++ '-' :: (digsOf2 pd d ++ '-' :: pad4 y)) {} = none := by
      simp [runToks, e1 2 '-' (by omega) rfl]
    have hg2 : runToks [FTok.numM, FTok.litC '/', FTok.numD, FTok.litC '/', FTok.numY2]
        (digsOf2 pm m ++ '-' :: (digsOf2 pd d ++ '-' :: pad4 y)) {} = none := by
      simp [runToks, e1 2 '-' (by omega) rfl]
    have hg5 : runToks [FTok.numY4, FTok.litC '-', FTok.numM, FTok.litC '-', FTok.numD]
        (digsOf2 pm m ++ '-' :: (digsOf2 pd d ++ '-' :: pad4 y)) {} = none := by
      simp [runToks, e1 4 '-' (by omega) rfl, e2 2 '-' (by omega) rfl, e4,
        show ((pad4 y).drop 2).isEmpty = false from rfl]
    have hg6 : runToks [FTok.numY4, FTok.litC '/', FTok.numM, FTok.litC '/', FTok.numD]
        (digsOf2 pm m ++ '-' :: (digsOf2 pd d ++ '-' :: pad4 y)) {} = none := by
      simp [runToks, e1 4 '-' (by omega) rfl]
    have hg7 : runToks [FTok.monA, FTok.litC ' ', FTok.numD, FTok.litC ' ', FTok.numY4]
        (digsOf2 pm m ++ '-' :: (digsOf2 pd d ++ '-' :: pad4 y)) {} = none := by
      simp [runToks, monMatchGo_digsOf2_abbr]
    have hg8 : runToks [FTok.monA, FTok.litC ' ', FTok.numD, FTok.litC ',',
        FTok.litC ' ', FTok.numY4]
        (digsOf2 pm m ++ '-' :: (digsOf2 pd d ++ '-' :: pad4 y)) {} = none := by
      simp [runToks, monMatchGo_digsOf2_abbr]
    have hg9 : runToks [FTok.monW, FTok.litC ' ', FTok.numD, FTok.litC ' ', FTok.numY4]
        (digsOf2 pm m ++ '-' :: (digsOf2 pd d ++ '-' :: pad4 y)) {} = none := by
      simp [runToks, monMatchGo_digsOf2_wide]
    have hg10 : runToks [FTok.monW, FTok.litC ' ', FTok.numD, FTok.litC ',',
        FTok.litC ' ', FTok.numY4]
        (digsOf2 pm m ++ '-' :: (digsOf2 pd d ++ '-' :: pad4 y)) {} = none := by
      simp [runToks, monMatchGo_digsOf2_wide]
    have hg11 : runToks [FTok.numD, FTok.litC ' ', FTok.monA, FTok.litC ' ', FTok.numY4]
        (digsOf2 pm m ++ '-' :: (digsOf2 pd d ++ '-' :: pad4 y)) {} = none := by
      simp [runToks, e1 2 '-' (by omega) rfl]
    have hg12 : runToks [FTok.numD, FTok.litC ' ', FTok.monW, FTok.litC ' ', FTok.numY4]
        (digsOf2 pm m ++ '-' :: (digsOf2 pd d ++ '-' :: pad4 y)) {} = none := by
      simp [runToks, e1 2 '-' (by omega) rfl]
    have hiso := parseIso_numDash pm pd m d y
    have hleg : legacyNum (digsOf2 pm m ++ '-' :: (digsOf2 pd d ++ '-' :: pad4 y))
        = some ⟨(y : Int), m, d⟩ := by
      simp [legacyNum, e1 6 '-' (by omega) rfl, e2 6 '-' (by omega) rfl,
        e3 6 (by omega), hm1, hm2, hd1, hd2,
        show ¬y < 50 by omega, show ¬y < 100 by omega]
    simp [parseDate, dfParse, dfFormats, firstSome, htrim, hg1, hg2, hg5, hg6,
      hg7, hg8, hg9, hg10, hg11, hg12, nativeParse, hiso, hleg]

/-- C8 witness: the theorem applied to January 5, 2024 written without
leading zeros, the spellings `1/5/2024` and `1-5-2024`. -/
theorem c8_witness :
    parseDate ctx0.today (numDateStr false false '/' 1 5 2024)
        = some ⟨2024, 1, 5⟩ ∧
    parseDate ctx0.today (numDateStr false false '-' 1 5 2024)
        = some ⟨2024, 1, 5⟩ :=
  c8_separator_agnostic ctx0.today false false 1 5 2024 (by decide) (by decide)
    (by decide) (by decide) (by decide) (by decide)

/-- C1 witness: the single record produced for the input `"milk"` is in the
output and its confidence (0.4) obeys the amended bounds. -/
theorem c1_witness :
    ({ id := (ctx0.nowMs : Rat), name := "Milk", expiryDate := "2024-12-28",
       addedDate := "2024-12-21", confidence := 2/5 } : GroceryRecord) ∈
        processOCRTextJS ctx0 (JSVal.str "milk") ∧
    (0 ≤ (2/5 : Rat) ∧ (2/5 : Rat) ≤ 11/10) :=
  ⟨by decide,
   c1_confidence_bounds ctx0 (JSVal.str "milk")
     { id := (ctx0.nowMs : Rat), name := "Milk", expiryDate := "2024-12-28",
       addedDate := "2024-12-21", confidence := 2/5 } (by decide)⟩

end OCR
